import Mathlib

/-!
Verification of the `hastom/fetch` request-construction library (`src/index.ts`).

The development shallowly embeds the TypeScript source in Lean:

* JavaScript runtime values are modelled by the inductive type `JSVal`
  (primitives, arrays, plain objects as insertion-ordered association lists,
  and `Headers` collections as the one object subtype the code manipulates).
* Every function of `src/index.ts` is translated to a computable Lean
  definition with the same name (`isAnyObject`, `isPlainObject`,
  `isAbsoluteURL`, `combineURLs`, `mergeDeep`, `stringifyParams`,
  `convertInputToURL`, `transformOptions`, `request`, `createFetchInstance`,
  `fetcher`).  Value-level (input/output) behaviour is captured here; the
  in-place mutation behaviour of the same code is captured separately by a
  store-passing embedding (`Heap`, `mergeDeepH`, `transformOptionsH`, ...)
  further below, used for the claims about mutation of captured defaults.
* The platform pieces the code calls into (`URL`, `Headers`,
  `encodeURIComponent`, `JSON.stringify`, `location.origin`, `fetch`) are
  modelled faithfully for the value shapes the library exercises: the `URL`
  model keeps the pre-query part, query and fragment of an absolute URL
  verbatim; `fetch` itself is external, so a call is represented by the
  `FetchCall` record of arguments handed to it, and a thrown URL-resolution
  error is an `Except.error` (no `FetchCall` is produced, i.e. the fetch
  primitive is never invoked).
-/

/-- A JavaScript runtime value as manipulated by `src/index.ts`: primitives,
arrays, plain objects (`constructor === Object`), and `Headers` collections
(the object subtype the code tests with `instanceof Headers`).  Plain objects
and their field order are modelled as insertion-ordered association lists,
matching JavaScript enumeration order for the non-integer string keys the
library uses. -/
inductive JSVal where
  | undef : JSVal
  | null : JSVal
  | bool (b : Bool) : JSVal
  | num (n : Int) : JSVal
  | str (s : String) : JSVal
  | arr (elems : List JSVal) : JSVal
  | obj (fields : List (String × JSVal)) : JSVal
  | headersV (entries : List (String × String)) : JSVal

/-- Lookup in a record (association list): the first binding of the key. -/
def recGet? {α : Type} : List (String × α) → String → Option α
  | [], _ => none
  | (k', v) :: rest, k => if k' = k then some v else recGet? rest k

/-- Whether a record has a binding for the key. -/
def recHasKey {α : Type} : List (String × α) → String → Bool
  | [], _ => false
  | (k', _) :: rest, k => if k' = k then true else recHasKey rest k

/-- JavaScript property assignment `o[k] = v` on a record value: an existing
binding (keys are unique in a JavaScript object) keeps its position and gets
the new value, a new key is appended at the end. -/
def recSet {α : Type} : List (String × α) → String → α → List (String × α)
  | [], k, v => [(k, v)]
  | (k', w) :: rest, k, v =>
    if k' = k then (k', v) :: rest else (k', w) :: recSet rest k v

/-- The keys of a record, in enumeration order. -/
def recKeys {α : Type} (fs : List (String × α)) : List String := fs.map (·.1)

/-- Property read `o[k]` on a plain object: `undefined` when the key is
absent. -/
def objGetD (fs : List (String × JSVal)) (k : String) : JSVal :=
  (recGet? fs k).getD JSVal.undef

/-- `isAnyObject` from `src/index.ts:17-19`: `typeof a === 'object'`.  Note
that in JavaScript `typeof null === 'object'`, and arrays and object
subtypes such as `Headers` are also `'object'`. -/
def isAnyObject : JSVal → Bool
  | JSVal.null => true
  | JSVal.arr _ => true
  | JSVal.obj _ => true
  | JSVal.headersV _ => true
  | _ => false

/-- `isPlainObject` from `src/index.ts:21-23`:
`typeof a === 'object' && a !== null && a.constructor === Object`. -/
def isPlainObject : JSVal → Bool
  | JSVal.obj _ => true
  | _ => false

/-- JavaScript truthiness of a value (`if (v)`). -/
def truthy : JSVal → Bool
  | JSVal.undef => false
  | JSVal.null => false
  | JSVal.bool b => b
  | JSVal.num n => n != 0
  | JSVal.str s => s ≠ ""
  | JSVal.arr _ => true
  | JSVal.obj _ => true
  | JSVal.headersV _ => true

/-- Whether the value is an array (`Array.isArray`). -/
def isArrB : JSVal → Bool
  | JSVal.arr _ => true
  | _ => false

/-- The elements of an array value (empty for non-arrays). -/
def arrElems : JSVal → List JSVal
  | JSVal.arr es => es
  | _ => []

/-- The index-keyed fields of an array, i.e. its own enumerable properties
`"0", "1", ...` in ascending order. -/
def indexFields (start : Nat) : List JSVal → List (String × JSVal)
  | [] => []
  | v :: rest => (toString start, v) :: indexFields (start + 1) rest

/-- The own enumerable properties of a value, as read by both a spread
`{ ...v }` and `Object.keys(v)` / `for..in`: the fields of a plain object,
the index-keyed elements of an array, and nothing for `null`, primitives and
`Headers` collections (a `Headers` object has no own enumerable
properties). -/
def spreadFields : JSVal → List (String × JSVal)
  | JSVal.obj fs => fs
  | JSVal.arr es => indexFields 0 es
  | _ => []

/-- One uppercase hexadecimal digit. -/
def hexUpper (n : Nat) : Char :=
  if n < 10 then Char.ofNat (48 + n) else Char.ofNat (55 + n)

/-- One lowercase hexadecimal digit. -/
def hexLower (n : Nat) : Char :=
  if n < 10 then Char.ofNat (48 + n) else Char.ofNat (87 + n)

/-- The UTF-8 encoding of one character, as byte values. -/
def utf8BytesOfChar (c : Char) : List Nat :=
  let n := c.toNat
  if n < 128 then [n]
  else if n < 2048 then [192 + n / 64, 128 + n % 64]
  else if n < 65536 then
    [224 + n / 4096, 128 + n / 64 % 64, 128 + n % 64]
  else
    [240 + n / 262144, 128 + n / 4096 % 64, 128 + n / 64 % 64, 128 + n % 64]

/-- The characters `encodeURIComponent` leaves unescaped:
`A-Z a-z 0-9 - _ . ! ~ * ' ( )`. -/
def isUnreservedChar (c : Char) : Bool :=
  c.isAlpha || c.isDigit ||
    c = '-' || c = '_' || c = '.' || c = '!' || c = '~' || c = '*' ||
    c = Char.ofNat 39 || c = '(' || c = ')'

/-- `%XX` percent-escape of one byte, uppercase hex. -/
def pctByte (b : Nat) : String :=
  String.mk [Char.ofNat 37, hexUpper (b / 16), hexUpper (b % 16)]

/-- The platform `encodeURIComponent`: unreserved characters pass through,
every other character is percent-escaped byte-by-byte in UTF-8. -/
def encodeURIComponent (s : String) : String :=
  String.join (s.data.map (fun c =>
    if isUnreservedChar c then String.singleton c
    else String.join ((utf8BytesOfChar c).map pctByte)))

/-- JavaScript `String(v)` coercion for the value shapes the library feeds to
string contexts (`encodeURIComponent` arguments, header values, URL pieces):
primitives print the standard way, arrays join their elements with commas
(`null`/`undefined` elements print as empty), plain objects print
`[object Object]`. -/
def jsToString : JSVal → String
  | JSVal.undef => "undefined"
  | JSVal.null => "null"
  | JSVal.bool b => if b then "true" else "false"
  | JSVal.num n => toString n
  | JSVal.str s => s
  | JSVal.arr es => String.intercalate ","
      (es.map (fun v =>
        match v with
        | JSVal.undef => ""
        | JSVal.null => ""
        | JSVal.bool b => if b then "true" else "false"
        | JSVal.num n => toString n
        | JSVal.str s => s
        | _ => "[object Object]"))
  | JSVal.obj _ => "[object Object]"
  | JSVal.headersV _ => "[object Headers]"

/-- JSON string escaping of one character, as in `JSON.stringify`. -/
def jsonEscChar (c : Char) : String :=
  if c = Char.ofNat 34 then "\\\""
  else if c = Char.ofNat 92 then "\\\\"
  else if c = Char.ofNat 8 then "\\b"
  else if c = Char.ofNat 9 then "\\t"
  else if c = Char.ofNat 10 then "\\n"
  else if c = Char.ofNat 12 then "\\f"
  else if c = Char.ofNat 13 then "\\r"
  else if c.toNat < 32 then
    "\\u00" ++ String.mk [hexLower (c.toNat / 16), hexLower (c.toNat % 16)]
  else String.singleton c

/-- A JSON string literal for `s`, as produced by `JSON.stringify`. -/
def jsonQuote (s : String) : String :=
  "\"" ++ String.join (s.data.map jsonEscChar) ++ "\""

mutual

/-- The platform `JSON.stringify` on one value: `none` when the value is not
serialized at all (`undefined`).  Object fields with unserializable values
are skipped; unserializable array elements print as `null`; a `Headers`
collection has no own enumerable properties and prints as `\x7b\x7d`. -/
def jsonValue : JSVal → Option String
  | JSVal.undef => none
  | JSVal.null => some "null"
  | JSVal.bool b => some (if b then "true" else "false")
  | JSVal.num n => some (toString n)
  | JSVal.str s => some (jsonQuote s)
  | JSVal.arr es =>
      some ("[" ++ String.intercalate "," (jsonArrayElems es) ++ "]")
  | JSVal.obj fs =>
      some ("\x7b" ++ String.intercalate "," (jsonObjFields fs) ++ "\x7d")
  | JSVal.headersV _ => some "\x7b\x7d"

/-- JSON serialization of array elements (unserializable ones as `null`). -/
def jsonArrayElems : List JSVal → List String
  | [] => []
  | v :: rest =>
      (match jsonValue v with
       | some s => s
       | none => "null") :: jsonArrayElems rest

/-- JSON serialization of object fields, skipping `undefined` values. -/
def jsonObjFields : List (String × JSVal) → List String
  | [] => []
  | (k, v) :: rest =>
      match jsonValue v with
      | some s => (jsonQuote k ++ ":" ++ s) :: jsonObjFields rest
      | none => jsonObjFields rest

end

/-- `JSON.stringify(v)` where the caller has checked `v` is serialized to a
string (in `transformOptions` the argument is always a plain object). -/
def jsonStringify (v : JSVal) : String := (jsonValue v).getD "undefined"

mutual

/-- The recursive step of `mergeDeep` (`src/index.ts:50`):
`mergeDeep(\x7b ...targetValue \x7d, sourceValue)` applied to a target copy
`tfs` (the spread of the old target value) and a source value `sv`.  The
source guard `if (!source) return target` fires exactly for a `null` source
(the only falsy value with `typeof 'object'`), and `Object.keys` of a
`Headers` collection is empty, so both return the target copy unchanged;
a plain-object source iterates its fields and an array source iterates its
index keys in ascending order. -/
def mergeInto : List (String × JSVal) → JSVal → List (String × JSVal)
  | tfs, JSVal.obj sfs => mergeFieldsList tfs sfs
  | tfs, JSVal.arr es => mergeElemsList tfs 0 es
  | tfs, _ => tfs

/-- `Object.keys(source).forEach(...)` from `src/index.ts:43-54`, iterating
the fields of a plain-object source: per key, concatenate when target and
source values are both arrays, recursively merge into a spread copy of the
target value when both have `typeof 'object'`, otherwise assign the source
value. -/
def mergeFieldsList :
    List (String × JSVal) → List (String × JSVal) → List (String × JSVal)
  | tfs, [] => tfs
  | tfs, (k, sv) :: rest =>
    let tv := objGetD tfs k
    let newv :=
      if isArrB tv && isArrB sv then JSVal.arr (arrElems tv ++ arrElems sv)
      else if isAnyObject tv && isAnyObject sv then
        JSVal.obj (mergeInto (spreadFields tv) sv)
      else sv
    mergeFieldsList (recSet tfs k newv) rest

/-- The same key loop for an array source, whose `Object.keys` are
`"0", "1", ...` in ascending order. -/
def mergeElemsList :
    List (String × JSVal) → Nat → List JSVal → List (String × JSVal)
  | tfs, _, [] => tfs
  | tfs, i, sv :: rest =>
    let tv := objGetD tfs (toString i)
    let newv :=
      if isArrB tv && isArrB sv then JSVal.arr (arrElems tv ++ arrElems sv)
      else if isAnyObject tv && isAnyObject sv then
        JSVal.obj (mergeInto (spreadFields tv) sv)
      else sv
    mergeElemsList (recSet tfs (toString i) newv) (i + 1) rest

end

/-- The value assigned to `target[key]` by one iteration of the `mergeDeep`
key loop, given the current target value `tv` and the source value `sv`
(`src/index.ts:47-53`). -/
def mergeValue (tv sv : JSVal) : JSVal :=
  if isArrB tv && isArrB sv then JSVal.arr (arrElems tv ++ arrElems sv)
  else if isAnyObject tv && isAnyObject sv then
    JSVal.obj (mergeInto (spreadFields tv) sv)
  else sv

/-- `mergeDeep` from `src/index.ts:37-57`, as a function on record values:
an absent (`undefined`) source returns the target, otherwise the source's
keys are folded over the target.  The source mutates its `target` argument
in place and returns it; every call site passes a fresh spread copy, so the
returned value is the one computed here (the store-level mutation behaviour
is modelled separately by `mergeDeepH` below). -/
def mergeDeep (target : List (String × JSVal))
    (source : Option (List (String × JSVal))) : List (String × JSVal) :=
  match source with
  | none => target
  | some sfs => mergeFieldsList target sfs

mutual

/-- The fragment one truthy-keyed entry of the `stringifyParams` loop pushes
(`src/index.ts:68-70`), given the entry's value and computed key: a non-`null`
value of `typeof 'object'` contributes the recursive
`stringifyParams(value, key)` (a `Headers` value has no own enumerable
properties, so its recursion contributes the empty string); any other value
contributes `encodeURIComponent(key) + '=' + encodeURIComponent(value)`. -/
def stringifyFrag : JSVal → String → String
  | JSVal.obj fs, key =>
    String.intercalate "&" ((stringifyEntries fs key).filter (fun s => s ≠ ""))
  | JSVal.arr es, key =>
    String.intercalate "&"
      ((stringifyIdxEntries es 0 key).filter (fun s => s ≠ ""))
  | JSVal.headersV _, _ => ""
  | v, key =>
    encodeURIComponent key ++ "=" ++ encodeURIComponent (jsToString v)

/-- The `for (const p in params)` loop of `stringifyParams`
(`src/index.ts:61-72`) over the own enumerable fields of a plain-object
argument, collecting the pushed fragments: an `undefined` value is skipped
(`continue`), every other value pushes its `stringifyFrag`. -/
def stringifyEntries : List (String × JSVal) → String → List String
  | [], _ => []
  | (p, value) :: rest, pre =>
    let key := if pre ≠ "" then pre ++ "[" ++ p ++ "]" else p
    match value with
    | JSVal.undef => stringifyEntries rest pre
    | v => stringifyFrag v key :: stringifyEntries rest pre

/-- The same loop over an array value, whose `for..in` keys are
`"0", "1", ...` in ascending order. -/
def stringifyIdxEntries : List JSVal → Nat → String → List String
  | [], _, _ => []
  | value :: rest, i, pre =>
    let key := if pre ≠ "" then pre ++ "[" ++ toString i ++ "]" else toString i
    match value with
    | JSVal.undef => stringifyIdxEntries rest (i + 1) pre
    | v => stringifyFrag v key :: stringifyIdxEntries rest (i + 1) pre

end

/-- `stringifyParams` from `src/index.ts:59-74` on the fields of its record
argument: collect the fragments of the key loop, drop the empty ones and
join with `&`.  In the source the recursive `stringifyParams(value, key)`
call performs this same filter-and-join on the nested record, which is
exactly what `stringifyEntries` inlines; a `Headers` value has no own
enumerable properties so its recursive call contributes the empty string
(dropped by the filter). -/
def stringifyParams (params : List (String × JSVal)) (pre : String) : String :=
  String.intercalate "&" ((stringifyEntries params pre).filter (fun s => s ≠ ""))

/-- The platform `URL` object, for the absolute URLs this library builds: the
part before the query (scheme, host and path, kept verbatim), the query
(without its leading `?`) and the fragment (without its `#`).  `href`
serializes the three parts back; normalizations that the shapes exercised
here never trigger (host case, default ports, path dot-segments) are not
modelled. -/
structure URLModel where
  base : String
  query : String
  frag : String
deriving Repr, DecidableEq

/-- Split a character list at the first occurrence of `c`: the part before,
and the part after when `c` occurs. -/
def splitChars : List Char → Char → List Char × Option (List Char)
  | [], _ => ([], none)
  | x :: xs, c =>
    if x = c then ([], some xs)
    else
      let r := splitChars xs c
      (x :: r.1, r.2)

/-- `new URL(s)` on an absolute URL string: split off the fragment at the
first `#`, then the query at the first `?`. -/
def parseURL (s : String) : URLModel :=
  let h := splitChars s.data (Char.ofNat 35)
  let q := splitChars h.1 (Char.ofNat 63)
  ⟨String.mk q.1, String.mk (q.2.getD []), String.mk (h.2.getD [])⟩

/-- The `url.search` getter: empty for an empty query, else `?` followed by
the query. -/
def urlSearch (u : URLModel) : String :=
  if u.query = "" then "" else "?" ++ u.query

/-- The `url.search` setter: a leading `?` is stripped, the rest becomes the
query verbatim. -/
def setSearch (u : URLModel) (s : String) : URLModel :=
  { u with query :=
      match s.data with
      | c :: rest => if c = Char.ofNat 63 then String.mk rest else s
      | [] => s }

/-- The `url.href` serialization of the model. -/
def urlHref (u : URLModel) : String :=
  u.base ++ (if u.query = "" then "" else "?" ++ u.query)
    ++ (if u.frag = "" then "" else "#" ++ u.frag)

/-- A character the scheme token of `absoluteURLRegex` may contain after its
leading letter: `[a-z\d+\-.]` under the `i` flag. -/
def isSchemeChar (c : Char) : Bool :=
  c.isAlpha || c.isDigit || c = '+' || c = '-' || c = '.'

/-- Whether the character list starts with `//`. -/
def startsWithSlashSlash : List Char → Bool
  | c1 :: c2 :: _ => c1 = '/' && c2 = '/'
  | _ => false

/-- After the leading letter of a scheme token: consume scheme characters up
to a `:`, which must be followed immediately by `//`. -/
def schemeRest : List Char → Bool
  | [] => false
  | c :: rest =>
    if c = ':' then startsWithSlashSlash rest
    else if isSchemeChar c then schemeRest rest
    else false

/-- `isAbsoluteURL` from `src/index.ts:25-29`: the test of
`/^([a-z][a-z\d+\-.]*:)?\/\//i` — an optional scheme token followed by `//`,
so scheme-relative `//host/path` URLs count as absolute. -/
def isAbsoluteURL (url : String) : Bool :=
  startsWithSlashSlash url.data ||
    (match url.data with
     | c :: rest => c.isAlpha && schemeRest rest
     | [] => false)

/-- `combineURLs` from `src/index.ts:31-35`: join with exactly one `/`,
stripping trailing slashes from the base and leading slashes from the
relative part; an empty relative part returns the base unchanged. -/
def combineURLs (baseURL relativeURL : String) : String :=
  if relativeURL ≠ "" then
    String.mk (baseURL.data.reverse.dropWhile (fun c => c = '/')).reverse
      ++ "/" ++ String.mk (relativeURL.data.dropWhile (fun c => c = '/'))
  else baseURL

/-- A request target (`RequestInfo | URL`): a string, a `URL` object, or a
`Request` object (of which only the `url` string is consulted). -/
inductive FetchInput where
  | str (s : String)
  | url (u : URLModel)
  | request (urlString : String)

/-- `new URL(rel, origin)` for the shapes reached from `convertInputToURL`:
`rel` is a non-absolute string (both branches that resolve against
`location.origin` are guarded by a failed `isAbsoluteURL` test) and `origin`
is an origin of the form `scheme://host`. -/
def resolveWithBase (rel origin : String) : URLModel :=
  match rel.data with
  | c :: _ => if c = '/' then parseURL (origin ++ rel)
              else parseURL (origin ++ "/" ++ rel)
  | [] => parseURL (origin ++ "/" ++ rel)

/-- `convertInputToURL` from `src/index.ts:76-104`.  The ambient browsing
context is the `loc` argument: `some origin` models a defined global
`location` with that `location.origin`, `none` models
`typeof location === 'undefined'`.  A thrown `Error` is an `Except.error`
carrying the exact message.  A non-string `baseURL` cannot occur under the
TypeScript signature; its string coercion is `jsToString`. -/
def convertInputToURL (input : FetchInput) (init : List (String × JSVal))
    (loc : Option String) : Except String URLModel :=
  match input with
  | FetchInput.str s =>
    if isAbsoluteURL s then Except.ok (parseURL s)
    else
      let bv := objGetD init "baseURL"
      if truthy bv then
        let b := jsToString bv
        if isAbsoluteURL b then Except.ok (parseURL (combineURLs b s))
        else
          match loc with
          | some origin => Except.ok (resolveWithBase (combineURLs b s) origin)
          | none =>
            Except.error ("Failed to build URL: base url is relative ("
              ++ b ++ ") and browser location is unavailable")
      else
        match loc with
        | some origin => Except.ok (resolveWithBase s origin)
        | none =>
          Except.error
            "Failed to build URL: base url is not set and browser location is unavailable"
  | FetchInput.url u => Except.ok u
  | FetchInput.request us => Except.ok (parseURL us)

/-- ASCII lowercasing of a header name, as the `Headers` machinery
normalizes names. -/
def lowerStr (s : String) : String := String.mk (s.data.map Char.toLower)

/-- `Headers.prototype.set`: the name is matched case-insensitively (stored
lowercase); an existing entry is replaced in place, a new one appended. -/
def headersSet (hs : List (String × String)) (name value : String) :
    List (String × String) :=
  recSet hs (lowerStr name) value

/-- Header lookup by case-insensitive name. -/
def headersGet (hs : List (String × String)) (name : String) : Option String :=
  recGet? hs (lowerStr name)

/-- `new Headers(init)`: a plain record contributes its entries in order
(names lowercased, values string-coerced); `new Headers(undefined)` (the
`headers` field absent) is empty. -/
def mkHeaders : JSVal → List (String × String)
  | JSVal.obj fs => fs.foldl (fun acc kv => headersSet acc kv.1 (jsToString kv.2)) []
  | _ => []

/-- `headers instanceof Headers ? headers : new Headers(headers)`
(`src/index.ts:110`): an existing `Headers` collection is used as is (the
very same object — the store-level model keeps its identity), anything else
is wrapped in a fresh one. -/
def normalizeHeaders : JSVal → List (String × String)
  | JSVal.headersV hs => hs
  | h => mkHeaders h

/-- The record keys `transformOptions` destructures away from `init`
(`src/index.ts:108`); everything else is the `...rest` passed through as
transport options. -/
def restKeys : List String := ["body", "headers", "params", "baseURL"]

/-- `transformOptions` from `src/index.ts:106-132`.  Produces the `URL` and
the transport-options record handed to `fetch`: `rest` is `init` without the
four destructured keys; a truthy plain-object `body` becomes its JSON
encoding with the `content-type: application/json` header set, any other
truthy `body` passes through; truthy `params` serialize and, when non-empty,
are appended to `url.search` after a `&`; the normalized headers are attached
as `options.headers`. -/
def transformOptions (input : FetchInput) (init : List (String × JSVal))
    (loc : Option String) :
    Except String (URLModel × List (String × JSVal)) :=
  let body := objGetD init "body"
  let headers := objGetD init "headers"
  let params := objGetD init "params"
  let rest := init.filter (fun kv => !(restKeys.contains kv.1))
  match convertInputToURL input init loc with
  | Except.error e => Except.error e
  | Except.ok url =>
    let normilizedHeaders := normalizeHeaders headers
    let bodyStep :=
      if truthy body then
        if isPlainObject body then
          (recSet rest "body" (JSVal.str (jsonStringify body)),
           headersSet normilizedHeaders "content-type" "application/json")
        else (recSet rest "body" body, normilizedHeaders)
      else (rest, normilizedHeaders)
    let url2 :=
      if truthy params then
        let paramsString := stringifyParams (spreadFields params) ""
        if paramsString ≠ "" then
          setSearch url (urlSearch url ++ "&" ++ paramsString)
        else url
      else url
    let options := recSet bodyStep.1 "headers" (JSVal.headersV bodyStep.2)
    Except.ok (url2, options)

/-- The arguments of one invocation of the external fetch primitive. -/
structure FetchCall where
  url : URLModel
  opts : List (String × JSVal)

/-- `request` from `src/index.ts:134-137`: transform the options and hand the
result to `fetch`.  The fetch primitive is external, so the model returns the
`FetchCall` it receives; a thrown resolution error propagates and `fetch` is
never invoked. -/
def request (input : FetchInput) (init : List (String × JSVal))
    (loc : Option String) : Except String FetchCall :=
  match transformOptions input init loc with
  | Except.ok uo => Except.ok ⟨uo.1, uo.2⟩
  | Except.error e => Except.error e

/-- The list of invocations of the fetch primitive a `request` call performs:
exactly one on success, none when URL resolution throws first. -/
def fetchCalls (input : FetchInput) (init : List (String × JSVal))
    (loc : Option String) : List FetchCall :=
  match request input init loc with
  | Except.ok c => [c]
  | Except.error _ => []

/-- The callable instance built by `createFetchInstance`: the default
invocation plus the five verb-bound invocations. -/
structure Fetcher where
  call : FetchInput → List (String × JSVal) → Option String → Except String FetchCall
  get : FetchInput → List (String × JSVal) → Option String → Except String FetchCall
  post : FetchInput → List (String × JSVal) → Option String → Except String FetchCall
  put : FetchInput → List (String × JSVal) → Option String → Except String FetchCall
  patch : FetchInput → List (String × JSVal) → Option String → Except String FetchCall
  delete : FetchInput → List (String × JSVal) → Option String → Except String FetchCall

/-- `createFetchInstance` from `src/index.ts:139-160`.  Each invocation
merges a fresh spread copy of the captured defaults with a fresh spread copy
of the per-call options; a verb method overrides `method` in that copy before
merging (`\x7b ...init, method: 'GET' \x7d` keeps an existing `method`
binding's position and overwrites its value, which is `recSet`).  An absent
per-call `init` is the empty record. -/
def createFetchInstance (defaultInit : List (String × JSVal)) : Fetcher :=
  { call := fun input init loc =>
      request input (mergeDeep defaultInit (some init)) loc
    get := fun input init loc =>
      request input
        (mergeDeep defaultInit (some (recSet init "method" (JSVal.str "GET")))) loc
    post := fun input init loc =>
      request input
        (mergeDeep defaultInit (some (recSet init "method" (JSVal.str "POST")))) loc
    put := fun input init loc =>
      request input
        (mergeDeep defaultInit (some (recSet init "method" (JSVal.str "PUT")))) loc
    patch := fun input init loc =>
      request input
        (mergeDeep defaultInit (some (recSet init "method" (JSVal.str "PATCH")))) loc
    delete := fun input init loc =>
      request input
        (mergeDeep defaultInit (some (recSet init "method" (JSVal.str "DELETE")))) loc }

/-- The pre-built default instance `fetcher` (`src/index.ts:162`). -/
def fetcher : Fetcher := createFetchInstance []

/-- The `href` of the URL handed to the fetch primitive, when one was. -/
def callHref : Except String FetchCall → Option String
  | Except.ok c => some (urlHref c.url)
  | Except.error _ => none

/-- The `method` field of the transport options handed to the fetch
primitive, when one was. -/
def callMethod : Except String FetchCall → Option JSVal
  | Except.ok c => some (objGetD c.opts "method")
  | Except.error _ => none

/-- Whether the transport options handed to the fetch primitive carry a
`body` key at all. -/
def callHasBody : Except String FetchCall → Option Bool
  | Except.ok c => some (recHasKey c.opts "body")
  | Except.error _ => none

/-- The `body` field of the transport options handed to the fetch primitive,
when one was. -/
def callBody : Except String FetchCall → Option JSVal
  | Except.ok c => some (objGetD c.opts "body")
  | Except.error _ => none

/-!
Store-passing embedding.  `mergeDeep` mutates its `target` argument in place,
and `transformOptions` calls `Headers.prototype.set` on the normalized
headers object — which is the caller's own object when `init.headers` is
already a `Headers` instance.  To settle the claims about mutation of the
captured defaults, the same code is embedded again over an explicit object
store: values are primitives or references, objects live in a heap, and
every JavaScript property write is a store update.  The recursion of
`mergeDeep` and `JSON.stringify` follows heap references, so it is indexed
by fuel (JavaScript itself overflows the stack on cyclic input); exhausted
fuel returns the store unchanged and is never reached on the acyclic stores
of the theorems below.
-/

/-- A heap value: a primitive or a reference to a heap object. -/
inductive HVal where
  | undef : HVal
  | null : HVal
  | bool (b : Bool) : HVal
  | num (n : Int) : HVal
  | str (s : String) : HVal
  | ref (a : Nat) : HVal
deriving Repr, DecidableEq

/-- The kind of a heap object: a plain object (`constructor === Object`), an
array, or a `Headers` collection. -/
inductive HKind where
  | plain : HKind
  | array : HKind
  | headersK : HKind
deriving Repr, DecidableEq

/-- A heap object: its kind and its fields (for an array, index-keyed fields
in ascending order; for a `Headers` collection, the lowercased header
entries with string values). -/
structure HObj where
  kind : HKind
  fields : List (String × HVal)
deriving Repr, DecidableEq

/-- The object store: allocated objects and the next fresh address. -/
structure Heap where
  objs : List (Nat × HObj)
  next : Nat
deriving Repr, DecidableEq

/-- Lookup in the object list of a store (addresses are unique). -/
def lookupObjs (a : Nat) : List (Nat × HObj) → Option HObj
  | [] => none
  | (b, o) :: rest => if b = a then some o else lookupObjs a rest

/-- Replace the fields of the object at `a` in the object list (its kind
never changes); no effect at an unallocated address. -/
def writeObjs (a : Nat) (fs : List (String × HVal)) :
    List (Nat × HObj) → List (Nat × HObj)
  | [] => []
  | (b, o) :: rest =>
    if b = a then (b, ⟨o.kind, fs⟩) :: rest else (b, o) :: writeObjs a fs rest

/-- The object at address `a`, when allocated. -/
def Heap.lookupObj (h : Heap) (a : Nat) : Option HObj := lookupObjs a h.objs

/-- Allocate a new object at the next fresh address. -/
def Heap.alloc (h : Heap) (o : HObj) : Nat × Heap :=
  (h.next, ⟨(h.next, o) :: h.objs, h.next + 1⟩)

/-- Replace the fields of the object at `a` (its kind never changes). -/
def Heap.writeFields (h : Heap) (a : Nat) (fs : List (String × HVal)) : Heap :=
  ⟨writeObjs a fs h.objs, h.next⟩

/-- The fields of the object at `a` (empty when unallocated). -/
def hObjFields (h : Heap) (a : Nat) : List (String × HVal) :=
  match h.lookupObj a with
  | some o => o.fields
  | none => []

/-- The kind of the object at `a`, when allocated. -/
def hKind (h : Heap) (a : Nat) : Option HKind :=
  match h.lookupObj a with
  | some o => some o.kind
  | none => none

/-- Property read `o[k]` through a reference. -/
def hGetField (h : Heap) (a : Nat) (k : String) : HVal :=
  (recGet? (hObjFields h a) k).getD HVal.undef

/-- Property write `o[k] = v` through a reference: a store update. -/
def hSetField (h : Heap) (a : Nat) (k : String) (v : HVal) : Heap :=
  h.writeFields a (recSet (hObjFields h a) k v)

/-- `typeof v === 'object'` on a heap value: `null` and every reference. -/
def typeofObjectH : HVal → Bool
  | HVal.null => true
  | HVal.ref _ => true
  | _ => false

/-- `Array.isArray` on a heap value. -/
def isArrayH (h : Heap) : HVal → Bool
  | HVal.ref a => hKind h a = some HKind.array
  | _ => false

/-- `isPlainObject` on a heap value: a reference to a plain object. -/
def isPlainObjectH (h : Heap) : HVal → Bool
  | HVal.ref a => hKind h a = some HKind.plain
  | _ => false

/-- JavaScript truthiness of a heap value (every reference is truthy). -/
def truthyH : HVal → Bool
  | HVal.undef => false
  | HVal.null => false
  | HVal.bool b => b
  | HVal.num n => n != 0
  | HVal.str s => s ≠ ""
  | HVal.ref _ => true

/-- The own enumerable properties of a heap value, as read by `\x7b ...v \x7d`
and `Object.keys(v)`: the fields of a plain object or array, nothing for a
`Headers` collection, `null` or a primitive. -/
def spreadFieldsH (h : Heap) : HVal → List (String × HVal)
  | HVal.ref a =>
    match hKind h a with
    | some HKind.headersK => []
    | _ => hObjFields h a
  | _ => []

/-- Index-keyed fields for a freshly built array object. -/
def indexFieldsH (start : Nat) : List HVal → List (String × HVal)
  | [] => []
  | v :: rest => (toString start, v) :: indexFieldsH (start + 1) rest

/-- The elements of an array object, read through a reference (the values of
its index-keyed fields in order). -/
def arrElemsH (h : Heap) : HVal → List HVal
  | HVal.ref a => (hObjFields h a).map (·.2)
  | _ => []

/-- `mergeDeep` from `src/index.ts:37-57` over the store, mutating the target
object at `t` in place.  A falsy source (`null`, or the absent source) leaves
the store unchanged; otherwise the source's keys are iterated, reading
`source[key]` from the current store at each step: both-arrays concatenate
into a newly allocated array, both-`typeof`-objects allocate a spread copy of
the target value, recursively merge the source value into it and assign the
copy, anything else assigns the source value. -/
def mergeDeepH : Nat → Heap → Nat → HVal → Heap
  | 0, h, _, _ => h
  | fuel + 1, h, t, s =>
    if truthyH s then
      match s with
      | HVal.ref sa =>
        (recKeys (spreadFieldsH h (HVal.ref sa))).foldl (fun hh k =>
          let tv := hGetField hh t k
          let sv := hGetField hh sa k
          if isArrayH hh tv && isArrayH hh sv then
            let conc := hh.alloc ⟨HKind.array,
              indexFieldsH 0 (arrElemsH hh tv ++ arrElemsH hh sv)⟩
            hSetField conc.2 t k (HVal.ref conc.1)
          else if typeofObjectH tv && typeofObjectH sv then
            let copy := hh.alloc ⟨HKind.plain, spreadFieldsH hh tv⟩
            let h2 := mergeDeepH fuel copy.2 copy.1 sv
            hSetField h2 t k (HVal.ref copy.1)
          else hSetField hh t k sv) h
      | _ => h
    else h

/-- JavaScript `String(v)` coercion over the store (fuel-indexed through
array elements); reads the store, never writes it. -/
def jsToStringH : Nat → Heap → HVal → String
  | _, _, HVal.undef => "undefined"
  | _, _, HVal.null => "null"
  | _, _, HVal.bool b => if b then "true" else "false"
  | _, _, HVal.num n => toString n
  | _, _, HVal.str s => s
  | 0, _, HVal.ref _ => ""
  | fuel + 1, h, HVal.ref a =>
    match hKind h a with
    | some HKind.array =>
      String.intercalate "," ((hObjFields h a).map (fun kv =>
        match kv.2 with
        | HVal.undef => ""
        | HVal.null => ""
        | v => jsToStringH fuel h v))
    | some HKind.headersK => "[object Headers]"
    | _ => "[object Object]"

/-- `JSON.stringify` over the store (fuel-indexed through references);
reads the store, never writes it. -/
def jsonValueH : Nat → Heap → HVal → Option String
  | _, _, HVal.undef => none
  | _, _, HVal.null => some "null"
  | _, _, HVal.bool b => some (if b then "true" else "false")
  | _, _, HVal.num n => some (toString n)
  | _, _, HVal.str s => some (jsonQuote s)
  | 0, _, HVal.ref _ => none
  | fuel + 1, h, HVal.ref a =>
    match hKind h a with
    | some HKind.array =>
      some ("[" ++ String.intercalate ","
        ((hObjFields h a).map (fun kv =>
          match jsonValueH fuel h kv.2 with
          | some s => s
          | none => "null")) ++ "]")
    | some HKind.headersK => some "\x7b\x7d"
    | _ =>
      some ("\x7b" ++ String.intercalate ","
        ((hObjFields h a).filterMap (fun kv =>
          match jsonValueH fuel h kv.2 with
          | some s => some (jsonQuote kv.1 ++ ":" ++ s)
          | none => none)) ++ "\x7d")

/-- One fragment of `stringifyParams` over the store: the recursive
serialization for a non-`null` value of object type, the
`encodeURIComponent(key) + '=' + encodeURIComponent(value)` pair otherwise;
reads the store, never writes it. -/
def stringifyFragH : Nat → Heap → HVal → String → String
  | _, _, HVal.undef, _ => ""
  | 0, _, _, _ => ""
  | fuel + 1, h, HVal.ref a, pre =>
    String.intercalate "&"
      (((spreadFieldsH h (HVal.ref a)).filterMap (fun kv =>
        let key := if pre ≠ "" then pre ++ "[" ++ kv.1 ++ "]" else kv.1
        match kv.2 with
        | HVal.undef => none
        | v => some (stringifyFragH fuel h v key))).filter (fun s => s ≠ ""))
  | _, _, v, pre =>
    encodeURIComponent pre ++ "=" ++ encodeURIComponent (jsToStringH 1 ⟨[], 0⟩ v)

/-- `convertInputToURL` over the store: identical to the value-level
`convertInputToURL`, reading `init.baseURL` from the merged options object at
`t`; reads the store, never writes it. -/
def convertInputToURLH (h : Heap) (input : FetchInput) (t : Nat)
    (loc : Option String) : Except String URLModel :=
  match input with
  | FetchInput.str s =>
    if isAbsoluteURL s then Except.ok (parseURL s)
    else
      let bv := hGetField h t "baseURL"
      if truthyH bv then
        let b := jsToStringH 2 h bv
        if isAbsoluteURL b then Except.ok (parseURL (combineURLs b s))
        else
          match loc with
          | some origin => Except.ok (resolveWithBase (combineURLs b s) origin)
          | none =>
            Except.error ("Failed to build URL: base url is relative ("
              ++ b ++ ") and browser location is unavailable")
      else
        match loc with
        | some origin => Except.ok (resolveWithBase s origin)
        | none =>
          Except.error
            "Failed to build URL: base url is not set and browser location is unavailable"
  | FetchInput.url u => Except.ok u
  | FetchInput.request us => Except.ok (parseURL us)

/-- `new Headers(v)` over the store: allocate a fresh `Headers` object with
the record's entries (names lowercased, values string-coerced), or empty for
an absent argument. -/
def mkHeadersH (h : Heap) (v : HVal) : Nat × Heap :=
  match v with
  | HVal.ref a =>
    h.alloc ⟨HKind.headersK,
      (hObjFields h a).map (fun kv => (lowerStr kv.1, HVal.str (jsToStringH 2 h kv.2)))⟩
  | _ => h.alloc ⟨HKind.headersK, []⟩

/-- `Headers.prototype.set` over the store: a write to the headers object. -/
def headersSetH (h : Heap) (a : Nat) (name value : String) : Heap :=
  h.writeFields a (recSet (hObjFields h a) (lowerStr name) (HVal.str value))

/-- The arguments of one invocation of the fetch primitive, store level: the
URL and the address of the transport-options object. -/
structure FetchCallH where
  url : URLModel
  optsAddr : Nat
deriving Repr, DecidableEq

/-- `headers instanceof Headers ? headers : new Headers(headers)`
(`src/index.ts:110`) over the store: an existing `Headers` collection is the
same object (its address is returned unchanged — the aliasing the value-level
model cannot see), anything else allocates a fresh `Headers` object. -/
def normalizeHeadersH (h1 : Heap) (headers : HVal) : Nat × Heap :=
  match headers with
  | HVal.ref a =>
    if hKind h1 a = some HKind.headersK then (a, h1) else mkHeadersH h1 headers
  | _ => mkHeadersH h1 headers

/-- The body handling of `transformOptions` (`src/index.ts:113-120`) over the
store: a truthy plain-object body writes its JSON encoding to `options.body`
and sets `content-type: application/json` on the normalized headers object at
`nhA`; any other truthy body is written through; a falsy body writes
nothing. -/
def transformBodyStepH (fuel : Nat) (h2 : Heap) (restA nhA : Nat)
    (body : HVal) : Heap :=
  if truthyH body then
    if isPlainObjectH h2 body then
      headersSetH
        (hSetField h2 restA "body"
          (HVal.str ((jsonValueH fuel h2 body).getD "undefined")))
        nhA "content-type" "application/json"
    else hSetField h2 restA "body" body
  else h2

/-- `transformOptions` from `src/index.ts:106-132` over the store, for the
merged options object at `t`.  The `...rest` destructuring allocates a fresh
plain object; the normalized headers are the *same* object as `init.headers`
when that value is already a `Headers` instance, so the `content-type` write
for a plain-object body lands on the caller's object in that case. -/
def transformOptionsH (fuel : Nat) (h : Heap) (input : FetchInput) (t : Nat)
    (loc : Option String) : Heap × Except String FetchCallH :=
  let body := hGetField h t "body"
  let headers := hGetField h t "headers"
  let params := hGetField h t "params"
  let rest := (hObjFields h t).filter (fun kv => !(restKeys.contains kv.1))
  let restAlloc := h.alloc ⟨HKind.plain, rest⟩
  let restA := restAlloc.1
  let h1 := restAlloc.2
  match convertInputToURLH h1 input t loc with
  | Except.error e => (h1, Except.error e)
  | Except.ok url =>
    let nh := normalizeHeadersH h1 headers
    let nhA := nh.1
    let h2 := nh.2
    let h3 := transformBodyStepH fuel h2 restA nhA body
    let url2 :=
      if truthyH params then
        let paramsString := stringifyFragH fuel h3 params ""
        if paramsString ≠ "" then
          setSearch url (urlSearch url ++ "&" ++ paramsString)
        else url
      else url
    let h4 := hSetField h3 restA "headers" (HVal.ref nhA)
    (h4, Except.ok ⟨url2, restA⟩)

/-- One invocation of an instance built by `createFetchInstance`
(`src/index.ts:139-160`), store level: `request(input, mergeDeep(\x7b
...defaultInit \x7d, \x7b ...init \x7d))` for the default invocation
(`methodOverride = none`), and `request(input, mergeDeep(\x7b ...defaultInit
\x7d, \x7b ...init, method: VERB \x7d))` for a verb method.  `defaults` is
the address of the captured defaults record, `init` the per-call options
value (`undef` when absent). -/
def instanceCallH (fuel : Nat) (h : Heap) (defaults : Nat) (input : FetchInput)
    (init : HVal) (loc : Option String) (methodOverride : Option String) :
    Heap × Except String FetchCallH :=
  let tAlloc := h.alloc ⟨HKind.plain, hObjFields h defaults⟩
  let tA := tAlloc.1
  let h1 := tAlloc.2
  let sFields :=
    match methodOverride with
    | some m => recSet (spreadFieldsH h1 init) "method" (HVal.str m)
    | none => spreadFieldsH h1 init
  let sAlloc := h1.alloc ⟨HKind.plain, sFields⟩
  let h3 := mergeDeepH fuel sAlloc.2 tA (HVal.ref sAlloc.1)
  transformOptionsH fuel h3 input tA loc


/-- Store well-formedness: every allocated address is below the fresh-address
counter, so allocation really is fresh. -/
def Heap.wf (h : Heap) : Prop := ∀ p ∈ h.objs, p.1 < h.next

theorem recKeys_cons {α : Type} (p : String) (w : α)
    (rest : List (String × α)) : recKeys ((p, w) :: rest) = p :: recKeys rest := rfl

theorem recGet?_recSet_self {α : Type} (fs : List (String × α)) (k : String)
    (v : α) : recGet? (recSet fs k v) k = some v := by
  induction fs with
  | nil => simp [recSet, recGet?]
  | cons kv rest ih =>
    obtain ⟨p, w⟩ := kv
    by_cases hp : p = k
    · subst hp
      simp [recSet, recGet?]
    · simp [recSet, recGet?, hp, ih]

theorem recGet?_recSet_ne {α : Type} (fs : List (String × α)) (k k' : String)
    (v : α) (hkk : k' ≠ k) : recGet? (recSet fs k' v) k = recGet? fs k := by
  induction fs with
  | nil => simp [recSet, recGet?, hkk]
  | cons kv rest ih =>
    obtain ⟨p, w⟩ := kv
    by_cases hp : p = k'
    · subst hp
      simp [recSet, recGet?, hkk]
    · by_cases hpk : p = k
      · subst hpk
        simp [recSet, recGet?, hp]
      · simp [recSet, recGet?, hp, hpk, ih]

theorem recGet?_eq_none_of_not_mem {α : Type} (fs : List (String × α))
    (k : String) (h : k ∉ recKeys fs) : recGet? fs k = none := by
  induction fs with
  | nil => rfl
  | cons kv rest ih =>
    obtain ⟨p, w⟩ := kv
    rw [recKeys_cons] at h
    have hp : ¬ p = k := by
      intro he
      exact h (he ▸ List.mem_cons_self p (recKeys rest))
    have h2 : k ∉ recKeys rest := fun he => h (List.mem_cons_of_mem p he)
    simp [recGet?, hp, ih h2]

theorem recKeys_recSet_nodup {α : Type} (fs : List (String × α)) (k : String)
    (v : α) (h : (recKeys fs).Nodup) : (recKeys (recSet fs k v)).Nodup := by
  induction fs with
  | nil => simp [recSet, recKeys]
  | cons kv rest ih =>
    obtain ⟨p, w⟩ := kv
    rw [recKeys_cons] at h
    rw [List.nodup_cons] at h
    by_cases hp : p = k
    · subst hp
      rw [recSet, if_pos rfl, recKeys_cons, List.nodup_cons]
      exact h
    · rw [recSet, if_neg hp, recKeys_cons, List.nodup_cons]
      refine ⟨?_, ih h.2⟩
      intro hmem
      have : recKeys (recSet rest k v) = recKeys rest ∨
          recKeys (recSet rest k v) = recKeys rest ++ [k] := by
        clear h hmem ih
        induction rest with
        | nil => simp [recSet, recKeys]
        | cons kv2 rest2 ih2 =>
          obtain ⟨p2, w2⟩ := kv2
          by_cases hp2 : p2 = k
          · subst hp2
            rw [recSet, if_pos rfl]
            exact Or.inl rfl
          · rw [recSet, if_neg hp2, recKeys_cons, recKeys_cons]
            rcases ih2 with h2 | h2
            · exact Or.inl (by rw [h2])
            · exact Or.inr (by rw [h2]; rfl)
      rcases this with h2 | h2
      · rw [h2] at hmem
        exact h.1 hmem
      · rw [h2] at hmem
        rcases List.mem_append.mp hmem with h3 | h3
        · exact h.1 h3
        · have : p = k := by simpa using h3
          exact hp this

theorem objGetD_recSet_self (fs : List (String × JSVal)) (k : String)
    (v : JSVal) : objGetD (recSet fs k v) k = v := by
  simp [objGetD, recGet?_recSet_self]

theorem objGetD_recSet_ne (fs : List (String × JSVal)) (k k' : String)
    (v : JSVal) (h : k' ≠ k) : objGetD (recSet fs k' v) k = objGetD fs k := by
  simp [objGetD, recGet?_recSet_ne fs k k' v h]

/-- The fragments pushed by the `stringifyParams` key loop ignore entries
whose value is `undefined`. -/
theorem stringifyEntries_filter_undef (flds : List (String × JSVal))
    (pre : String) :
    stringifyEntries (flds.filter (fun kv =>
      match kv.2 with
      | JSVal.undef => false
      | _ => true)) pre = stringifyEntries flds pre := by
  induction flds with
  | nil => rfl
  | cons kv rest ih =>
    obtain ⟨p, v⟩ := kv
    cases v <;> simp [stringifyEntries, ih]

theorem mergeFieldsList_cons (tfs : List (String × JSVal)) (k : String)
    (sv : JSVal) (rest : List (String × JSVal)) :
    mergeFieldsList tfs ((k, sv) :: rest)
      = mergeFieldsList (recSet tfs k (mergeValue (objGetD tfs k) sv)) rest := by
  rw [mergeFieldsList, mergeValue]

/-- What the merge leaves at each key, for a source record with distinct keys
(as every JavaScript object has): a key absent from the source keeps the
target's value, a key present in the source gets `mergeValue` of the two
values. -/
theorem objGetD_mergeFieldsList (sfs : List (String × JSVal)) :
    ∀ tfs k, (recKeys sfs).Nodup →
    objGetD (mergeFieldsList tfs sfs) k =
      match recGet? sfs k with
      | some sv => mergeValue (objGetD tfs k) sv
      | none => objGetD tfs k := by
  induction sfs with
  | nil => intro tfs k _; rfl
  | cons kv rest ih =>
    intro tfs k hnd
    obtain ⟨k', sv⟩ := kv
    rw [recKeys_cons, List.nodup_cons] at hnd
    rw [mergeFieldsList_cons, ih _ k hnd.2]
    by_cases hk : k' = k
    · obtain rfl := hk
      have hnone := recGet?_eq_none_of_not_mem rest _ hnd.1
      simp [recGet?, hnone, objGetD_recSet_self]
    · simp only [recGet?, if_neg hk]
      rcases hg : recGet? rest k with _ | sv2 <;>
        simp [hg, objGetD_recSet_ne tfs k k' _ hk]

/-- Claim C1, amended: in the deep merge, for every key present in the source
record whose target value and source value are not both arrays and not both
of JavaScript object type (`typeof 'object'` — which counts `null`, arrays
and object subtypes such as `Headers` as objects, unlike the plain-record
test the claim states), the merged result at that key equals the source
value.  When both values are of object type but not both plain records (for
example a `null` source value over a record target value), the code instead
recurses through `isAnyObject` and does not assign the source value — see the
counterexample. -/
theorem claim_C1 (tfs sfs : List (String × JSVal)) (k : String) (sv : JSVal)
    (hnd : (recKeys sfs).Nodup) (hmem : recGet? sfs k = some sv)
    (harr : (isArrB (objGetD tfs k) && isArrB sv) = false)
    (hobj : (isAnyObject (objGetD tfs k) && isAnyObject sv) = false) :
    objGetD (mergeDeep tfs (some sfs)) k = sv := by
  rw [mergeDeep, objGetD_mergeFieldsList sfs tfs k hnd, hmem]
  simp [mergeValue, harr, hobj]

/-- Claim C1, counterexample: with target `\x7b a: \x7b x: 1 \x7d \x7d` and
source `\x7b a: null \x7d`, the values at `"a"` are not both arrays and not
both plain records (`null` is no plain record), so the claim predicts the
merged value `null`; the code merges into `mergeDeep(\x7b ...\x7bx:1\x7d
\x7d, null)`, which returns the target copy, so the result at `"a"` is
`\x7b x: 1 \x7d`, not the source value. -/
theorem claim_C1_counterexample :
    (isArrB (objGetD [("a", JSVal.obj [("x", JSVal.num 1)])] "a")
      && isArrB JSVal.null) = false
    ∧ (isPlainObject (objGetD [("a", JSVal.obj [("x", JSVal.num 1)])] "a")
      && isPlainObject JSVal.null) = false
    ∧ objGetD (mergeDeep [("a", JSVal.obj [("x", JSVal.num 1)])]
        (some [("a", JSVal.null)])) "a" = JSVal.obj [("x", JSVal.num 1)]
    ∧ JSVal.obj [("x", JSVal.num 1)] ≠ JSVal.null :=
  ⟨rfl, rfl, rfl, fun h => JSVal.noConfusion h⟩

/-- Claim C1, witness: merging source `\x7b a: "s" \x7d` over target
`\x7b a: 1 \x7d` replaces the number by the string outright. -/
theorem claim_C1_witness :
    objGetD (mergeDeep [("a", JSVal.num 1)] (some [("a", JSVal.str "s")])) "a"
      = JSVal.str "s" :=
  claim_C1 [("a", JSVal.num 1)] [("a", JSVal.str "s")] "a" (JSVal.str "s")
    (by decide) rfl rfl rfl

/-- Claim C6: the parameter serializer skips every key whose value is
`undefined` (serializing a record equals serializing the record with those
entries removed, and `serialize(\x7ba:1,b:undefined\x7d) = "a=1"`), while a
`null` value is emitted as the literal string `null`
(`serialize(\x7ba:null\x7d) = "a=null"`). -/
theorem claim_C6 :
    (∀ (flds : List (String × JSVal)) (pre : String),
      stringifyParams flds pre
        = stringifyParams (flds.filter (fun kv =>
            match kv.2 with
            | JSVal.undef => false
            | _ => true)) pre)
    ∧ stringifyParams [("a", JSVal.num 1), ("b", JSVal.undef)] "" = "a=1"
    ∧ stringifyParams [("a", JSVal.null)] "" = "a=null" := by
  refine ⟨?_, rfl, rfl⟩
  intro flds pre
  rw [stringifyParams, stringifyParams, stringifyEntries_filter_undef]

/-- Claim C7: the parameter serializer joins flat entries with `&`
(`serialize(\x7ba:1,b:2\x7d) = "a=1&b=2"`), encodes nested records with
percent-encoded bracket notation (`serialize(\x7ba:\x7bb:1\x7d\x7d) =
"a%5Bb%5D=1"`), and treats arrays as records keyed by their indices
(`serialize(\x7ba:[1,2]\x7d) = "a%5B0%5D=1&a%5B1%5D=2"`). -/
theorem claim_C7 :
    stringifyParams [("a", JSVal.num 1), ("b", JSVal.num 2)] "" = "a=1&b=2"
    ∧ stringifyParams [("a", JSVal.obj [("b", JSVal.num 1)])] "" = "a%5Bb%5D=1"
    ∧ stringifyParams [("a", JSVal.arr [JSVal.num 1, JSVal.num 2])] ""
        = "a%5B0%5D=1&a%5B1%5D=2" :=
  ⟨rfl, rfl, rfl⟩

theorem recHasKey_recSet_ne {α : Type} (fs : List (String × α)) (k k' : String)
    (v : α) (hkk : k' ≠ k) : recHasKey (recSet fs k' v) k = recHasKey fs k := by
  induction fs with
  | nil => simp [recSet, recHasKey, hkk]
  | cons kv rest ih =>
    obtain ⟨p, w⟩ := kv
    by_cases hp : p = k'
    · subst hp
      simp [recSet, recHasKey, hkk]
    · by_cases hpk : p = k
      · subst hpk
        simp [recSet, recHasKey, hp]
      · simp [recSet, recHasKey, hp, hpk, ih]

theorem recHasKey_filter_removed (fs : List (String × JSVal)) (k : String)
    (h : k ∈ restKeys) :
    recHasKey (fs.filter (fun kv => !(restKeys.contains kv.1))) k = false := by
  induction fs with
  | nil => rfl
  | cons kv rest ih =>
    obtain ⟨p, w⟩ := kv
    rw [List.filter_cons]
    by_cases hc : p ∈ restKeys
    · have hcond : ¬((!(restKeys.contains (p, w).1)) = true) := by simp [hc]
      rw [if_neg hcond]
      exact ih
    · have hcond : (!(restKeys.contains (p, w).1)) = true := by simp [hc]
      rw [if_pos hcond]
      have hp : ¬ p = k := by
        intro he
        exact hc (he ▸ h)
      simpa [recHasKey, hp] using ih

theorem recGet?_filter_kept {α : Type} (fs : List (String × α)) (k : String)
    (h : k ∉ restKeys) :
    recGet? (fs.filter (fun kv => !(restKeys.contains kv.1))) k
      = recGet? fs k := by
  induction fs with
  | nil => rfl
  | cons kv rest ih =>
    obtain ⟨p, w⟩ := kv
    rw [List.filter_cons]
    by_cases hc : p ∈ restKeys
    · have hcond : ¬((!(restKeys.contains (p, w).1)) = true) := by simp [hc]
      rw [if_neg hcond]
      have hp : ¬ p = k := by
        intro he
        exact h (he ▸ hc)
      conv_rhs => rw [recGet?]
      rw [if_neg hp]
      simpa using ih
    · have hcond : (!(restKeys.contains (p, w).1)) = true := by simp [hc]
      rw [if_pos hcond]
      by_cases hp : p = k
      · subst hp
        simp [recGet?]
      · rw [recGet?, recGet?, if_neg hp, if_neg hp]
        simpa using ih

theorem headersGet_headersSet_self (hs : List (String × String))
    (n v : String) : headersGet (headersSet hs n v) n = some v := by
  rw [headersGet, headersSet, recGet?_recSet_self]

/-- Claim C4: for a relative string target with no `baseURL` set and no
ambient origin, and likewise for a relative (truthy) `baseURL` with no
ambient origin, the request fails with the resolution error raised before the
fetch primitive is ever invoked (`fetchCalls` is empty: no arguments are ever
handed to `fetch`). -/
theorem claim_C4 :
    (∀ (s : String) (init : List (String × JSVal)),
      isAbsoluteURL s = false → objGetD init "baseURL" = JSVal.undef →
      request (FetchInput.str s) init none
          = Except.error
            "Failed to build URL: base url is not set and browser location is unavailable"
        ∧ fetchCalls (FetchInput.str s) init none = [])
    ∧ (∀ (s b : String) (init : List (String × JSVal)),
      isAbsoluteURL s = false → objGetD init "baseURL" = JSVal.str b →
      b ≠ "" → isAbsoluteURL b = false →
      request (FetchInput.str s) init none
          = Except.error ("Failed to build URL: base url is relative ("
              ++ b ++ ") and browser location is unavailable")
        ∧ fetchCalls (FetchInput.str s) init none = []) := by
  constructor
  · intro s init habs hbase
    have hconv : convertInputToURL (FetchInput.str s) init none
        = Except.error
          "Failed to build URL: base url is not set and browser location is unavailable" := by
      rw [convertInputToURL]
      simp [habs, hbase, truthy]
    refine ⟨?_, ?_⟩
    · rw [request, transformOptions]
      simp [hconv]
    · rw [fetchCalls, request, transformOptions]
      simp [hconv]
  · intro s b init habs hbase hb habsb
    have hconv : convertInputToURL (FetchInput.str s) init none
        = Except.error ("Failed to build URL: base url is relative ("
            ++ b ++ ") and browser location is unavailable") := by
      rw [convertInputToURL]
      simp [habs, hbase, truthy, hb, habsb, jsToString]
    refine ⟨?_, ?_⟩
    · rw [request, transformOptions]
      simp [hconv]
    · rw [fetchCalls, request, transformOptions]
      simp [hconv]

/-- Claim C4, witness: the relative target `"api/users"` with empty options
and no ambient origin, and the same target with the relative base `"v1"`,
both fail with the respective messages and never invoke `fetch`. -/
theorem claim_C4_witness :
    (request (FetchInput.str "api/users") [] none
        = Except.error
          "Failed to build URL: base url is not set and browser location is unavailable"
      ∧ fetchCalls (FetchInput.str "api/users") [] none = [])
    ∧ (request (FetchInput.str "api/users") [("baseURL", JSVal.str "v1")] none
        = Except.error
          "Failed to build URL: base url is relative (v1) and browser location is unavailable"
      ∧ fetchCalls (FetchInput.str "api/users") [("baseURL", JSVal.str "v1")] none = []) :=
  ⟨claim_C4.1 "api/users" [] rfl rfl,
   claim_C4.2 "api/users" "v1" [("baseURL", JSVal.str "v1")] rfl rfl
     (by decide) rfl⟩

/-- Claim C9: when `params` is present (truthy) but serializes to the empty
string, the options transformer leaves the resolved URL exactly as
`convertInputToURL` produced it — nothing, in particular no `&`, is appended
to its query string. -/
theorem claim_C9 (input : FetchInput) (init : List (String × JSVal))
    (loc : Option String) (u : URLModel) (opts : List (String × JSVal))
    (hp : truthy (objGetD init "params") = true)
    (hs : stringifyParams (spreadFields (objGetD init "params")) "" = "")
    (hok : transformOptions input init loc = Except.ok (u, opts)) :
    convertInputToURL input init loc = Except.ok u := by
  rw [transformOptions] at hok
  rcases hconv : convertInputToURL input init loc with e | u0 <;>
    rw [hconv] at hok
  · exact absurd hok (by simp)
  · simp only [hp, hs, if_true, if_pos, Except.ok.injEq] at hok
    simp only [if_neg (by simp : ¬(("" : String) ≠ ""))] at hok
    rw [(Prod.mk.injEq _ _ _ _).mp hok.symm |>.1]

/-- Claim C10: when the `body` option is falsy (the empty string, `null`, or
`0` — the hypothesis is exactly JavaScript falsiness), the transport options
handed to the fetch primitive carry no `body` key at all (the destructuring
removes it and the falsy guard never assigns one — an explicitly supplied
empty-string body is silently dropped), and the headers are exactly the
normalized input headers with no `content-type` added. -/
theorem claim_C10 (input : FetchInput) (init : List (String × JSVal))
    (loc : Option String) (u : URLModel) (opts : List (String × JSVal))
    (hb : truthy (objGetD init "body") = false)
    (hok : transformOptions input init loc = Except.ok (u, opts)) :
    recHasKey opts "body" = false
    ∧ objGetD opts "headers"
        = JSVal.headersV (normalizeHeaders (objGetD init "headers")) := by
  rw [transformOptions] at hok
  rcases hconv : convertInputToURL input init loc with e | u0 <;>
    rw [hconv] at hok
  · exact absurd hok (by simp)
  · simp only [hb, Bool.false_eq_true, if_false, Except.ok.injEq] at hok
    have hopts : opts = recSet (init.filter (fun kv => !(restKeys.contains kv.1)))
        "headers" (JSVal.headersV (normalizeHeaders (objGetD init "headers"))) :=
      ((Prod.mk.injEq _ _ _ _).mp hok).2.symm
    subst hopts
    refine ⟨?_, objGetD_recSet_self _ _ _⟩
    rw [recHasKey_recSet_ne _ _ _ _ (by decide)]
    exact recHasKey_filter_removed init "body" (by decide)

/-- Claim C10, witness: a call with an explicit empty-string body and a
plain-record header produces transport options with no `body` key and
exactly the wrapped input headers. -/
theorem claim_C10_witness :
    recHasKey [("method", JSVal.str "GET"),
      ("headers", JSVal.headersV [("x-a", "b")])] "body" = false
    ∧ objGetD [("method", JSVal.str "GET"),
        ("headers", JSVal.headersV [("x-a", "b")])] "headers"
      = JSVal.headersV (normalizeHeaders
          (objGetD [("body", JSVal.str ""), ("method", JSVal.str "GET"),
            ("headers", JSVal.obj [("X-A", JSVal.str "b")])] "headers")) :=
  claim_C10 (FetchInput.str "https://h.com/p")
    [("body", JSVal.str ""), ("method", JSVal.str "GET"),
      ("headers", JSVal.obj [("X-A", JSVal.str "b")])]
    none (parseURL "https://h.com/p") _ rfl rfl

/-- Claim C3: a call whose `body` option is a plain key/value record gets the
JSON encoding of that record as transport body with the `content-type:
application/json` header set on the normalized headers; a call whose `body`
is a non-empty string gets that string through unchanged with the headers
exactly the normalized input headers (no JSON content-type added). -/
theorem claim_C3 :
    (∀ (input : FetchInput) (init : List (String × JSVal)) (loc : Option String)
       (u : URLModel) (opts : List (String × JSVal))
       (bfs : List (String × JSVal)),
      objGetD init "body" = JSVal.obj bfs →
      transformOptions input init loc = Except.ok (u, opts) →
      objGetD opts "body" = JSVal.str (jsonStringify (JSVal.obj bfs))
        ∧ objGetD opts "headers" = JSVal.headersV
            (headersSet (normalizeHeaders (objGetD init "headers"))
              "content-type" "application/json")
        ∧ headersGet (headersSet (normalizeHeaders (objGetD init "headers"))
            "content-type" "application/json") "content-type"
            = some "application/json")
    ∧ (∀ (input : FetchInput) (init : List (String × JSVal)) (loc : Option String)
       (u : URLModel) (opts : List (String × JSVal)) (s : String),
      objGetD init "body" = JSVal.str s → s ≠ "" →
      transformOptions input init loc = Except.ok (u, opts) →
      objGetD opts "body" = JSVal.str s
        ∧ objGetD opts "headers" = JSVal.headersV
            (normalizeHeaders (objGetD init "headers"))) := by
  constructor
  · intro input init loc u opts bfs hb hok
    rw [transformOptions] at hok
    rcases hconv : convertInputToURL input init loc with e | u0 <;>
      rw [hconv] at hok
    · exact absurd hok (by simp)
    · rw [hb] at hok
      simp only [truthy, isPlainObject, if_true, Except.ok.injEq] at hok
      have hopts := ((Prod.mk.injEq _ _ _ _).mp hok).2.symm
      subst hopts
      refine ⟨?_, objGetD_recSet_self _ _ _, headersGet_headersSet_self _ _ _⟩
      rw [objGetD_recSet_ne _ _ _ _ (by decide), objGetD_recSet_self]
  · intro input init loc u opts s hb hs hok
    rw [transformOptions] at hok
    rcases hconv : convertInputToURL input init loc with e | u0 <;>
      rw [hconv] at hok
    · exact absurd hok (by simp)
    · rw [hb] at hok
      have ht : truthy (JSVal.str s) = true := by simp [truthy, hs]
      have hp : isPlainObject (JSVal.str s) = false := rfl
      rw [ht, hp] at hok
      simp only [if_true, Bool.false_eq_true, if_false, Except.ok.injEq] at hok
      have hopts := ((Prod.mk.injEq _ _ _ _).mp hok).2.symm
      subst hopts
      refine ⟨?_, objGetD_recSet_self _ _ _⟩
      rw [objGetD_recSet_ne _ _ _ _ (by decide), objGetD_recSet_self]

/-- Claim C3, witness: posting the record body `\x7b a: 1 \x7d` produces the
transport body `\x7b"a":1\x7d` with `content-type: application/json` set, and
posting the string body `"raw"` passes it through with untouched headers. -/
theorem claim_C3_witness :
    (objGetD [("body", JSVal.str "\x7b\"a\":1\x7d"),
        ("headers", JSVal.headersV [("content-type", "application/json")])] "body"
        = JSVal.str (jsonStringify (JSVal.obj [("a", JSVal.num 1)]))
      ∧ objGetD [("body", JSVal.str "\x7b\"a\":1\x7d"),
          ("headers", JSVal.headersV [("content-type", "application/json")])] "headers"
        = JSVal.headersV (headersSet (normalizeHeaders
            (objGetD [("body", JSVal.obj [("a", JSVal.num 1)])] "headers"))
            "content-type" "application/json")
      ∧ headersGet (headersSet (normalizeHeaders
          (objGetD [("body", JSVal.obj [("a", JSVal.num 1)])] "headers"))
          "content-type" "application/json") "content-type"
        = some "application/json")
    ∧ (objGetD [("body", JSVal.str "raw"), ("headers", JSVal.headersV [])] "body"
        = JSVal.str "raw"
      ∧ objGetD [("body", JSVal.str "raw"), ("headers", JSVal.headersV [])] "headers"
        = JSVal.headersV (normalizeHeaders
            (objGetD [("body", JSVal.str "raw")] "headers"))) :=
  ⟨claim_C3.1 (FetchInput.str "https://h.com/p")
      [("body", JSVal.obj [("a", JSVal.num 1)])] none
      (parseURL "https://h.com/p") _ [("a", JSVal.num 1)] rfl rfl,
   claim_C3.2 (FetchInput.str "https://h.com/p")
      [("body", JSVal.str "raw")] none
      (parseURL "https://h.com/p") _ "raw" rfl (by decide) rfl⟩

/-- Claim C9, witness: a params record whose only value is `undefined`
serializes to nothing, and the URL handed on is exactly the resolved one. -/
theorem claim_C9_witness :
    convertInputToURL (FetchInput.str "https://h.com/p")
      [("params", JSVal.obj [("x", JSVal.undef)])] none
      = Except.ok (parseURL "https://h.com/p") :=
  claim_C9 (FetchInput.str "https://h.com/p")
    [("params", JSVal.obj [("x", JSVal.undef)])] none
    (parseURL "https://h.com/p")
    [("headers", JSVal.headersV [])] rfl rfl rfl

/-- Transport options pass untouched keys through: any key outside the four
destructured ones reads the same from the transport options as from the
merged call options (the `body` and `headers` writes target other keys). -/
theorem objGetD_transformOptions_passthrough (input : FetchInput)
    (init : List (String × JSVal)) (loc : Option String) (u : URLModel)
    (opts : List (String × JSVal)) (k : String) (hk : k ∉ restKeys)
    (hok : transformOptions input init loc = Except.ok (u, opts)) :
    objGetD opts k = objGetD init k := by
  have hkh : "headers" ≠ k := by
    intro he
    exact hk (he ▸ (by decide : "headers" ∈ restKeys))
  have hkb : "body" ≠ k := by
    intro he
    exact hk (he ▸ (by decide : "body" ∈ restKeys))
  have hfil : objGetD (init.filter (fun kv => !(restKeys.contains kv.1))) k
      = objGetD init k := by
    rw [objGetD, recGet?_filter_kept init k hk, objGetD]
  rw [transformOptions] at hok
  rcases hconv : convertInputToURL input init loc with e | u0 <;>
    rw [hconv] at hok
  · exact absurd hok (by simp)
  · have hopts := ((Prod.mk.injEq _ _ _ _).mp
      ((Except.ok.injEq _ _).mp hok)).2.symm
    subst hopts
    rw [objGetD_recSet_ne _ _ _ _ hkh]
    by_cases hb : truthy (objGetD init "body") = true
    · rw [if_pos hb]
      by_cases hp : isPlainObject (objGetD init "body") = true
      · rw [if_pos hp]
        rw [objGetD_recSet_ne _ _ _ _ hkb]
        exact hfil
      · rw [if_neg hp]
        rw [objGetD_recSet_ne _ _ _ _ hkb]
        exact hfil
    · rw [if_neg hb]
      exact hfil

/-- The merged options of a verb invocation carry the verb as `method`:
the verb is a string, so the merge assigns it outright over whatever the
defaults held. -/
theorem objGetD_merge_method (d init : List (String × JSVal)) (verb : String)
    (hnd : (recKeys init).Nodup) :
    objGetD (mergeDeep d (some (recSet init "method" (JSVal.str verb))))
      "method" = JSVal.str verb := by
  rw [mergeDeep,
    objGetD_mergeFieldsList _ _ _ (recKeys_recSet_nodup init "method" _ hnd),
    recGet?_recSet_self]
  simp [mergeValue, isArrB, isAnyObject]

/-- A request whose merged options were built with a forced string `method`
hands that method to the fetch primitive. -/
theorem request_method_forced (d init : List (String × JSVal))
    (input : FetchInput) (loc : Option String) (u : URLModel)
    (opts : List (String × JSVal)) (verb : String)
    (hnd : (recKeys init).Nodup)
    (hok : request input
        (mergeDeep d (some (recSet init "method" (JSVal.str verb)))) loc
      = Except.ok ⟨u, opts⟩) :
    objGetD opts "method" = JSVal.str verb := by
  rw [request] at hok
  rcases htr : transformOptions input
      (mergeDeep d (some (recSet init "method" (JSVal.str verb)))) loc
    with e | uo <;> rw [htr] at hok
  · exact absurd hok (by simp)
  · obtain ⟨u0, o0⟩ := uo
    injection hok with h
    injection h with h1 h2
    subst h1
    subst h2
    rw [objGetD_transformOptions_passthrough _ _ _ _ _ "method"
      (by decide) htr]
    exact objGetD_merge_method d init verb hnd

/-- Claim C8: each verb method equals the default invocation with the
per-call options' `method` forced to the verb name (definitionally — both
merge `\x7b ...init, method: VERB \x7d` over the defaults copy), and for
every instance and per-call options record (with distinct keys, as every
JavaScript record has) the transport options handed to the fetch primitive
carry that verb as `method`, overriding any `method` in the defaults and in
the per-call options. -/
theorem claim_C8 :
    (∀ (d : List (String × JSVal)) (input : FetchInput)
       (init : List (String × JSVal)) (loc : Option String),
      (createFetchInstance d).get input init loc
          = (createFetchInstance d).call input
              (recSet init "method" (JSVal.str "GET")) loc
        ∧ ((recKeys init).Nodup → ∀ (u : URLModel) (opts : List (String × JSVal)),
            (createFetchInstance d).get input init loc = Except.ok ⟨u, opts⟩ →
            objGetD opts "method" = JSVal.str "GET"))
    ∧ (∀ (d : List (String × JSVal)) (input : FetchInput)
       (init : List (String × JSVal)) (loc : Option String),
      (createFetchInstance d).post input init loc
          = (createFetchInstance d).call input
              (recSet init "method" (JSVal.str "POST")) loc
        ∧ ((recKeys init).Nodup → ∀ (u : URLModel) (opts : List (String × JSVal)),
            (createFetchInstance d).post input init loc = Except.ok ⟨u, opts⟩ →
            objGetD opts "method" = JSVal.str "POST"))
    ∧ (∀ (d : List (String × JSVal)) (input : FetchInput)
       (init : List (String × JSVal)) (loc : Option String),
      (createFetchInstance d).put input init loc
          = (createFetchInstance d).call input
              (recSet init "method" (JSVal.str "PUT")) loc
        ∧ ((recKeys init).Nodup → ∀ (u : URLModel) (opts : List (String × JSVal)),
            (createFetchInstance d).put input init loc = Except.ok ⟨u, opts⟩ →
            objGetD opts "method" = JSVal.str "PUT"))
    ∧ (∀ (d : List (String × JSVal)) (input : FetchInput)
       (init : List (String × JSVal)) (loc : Option String),
      (createFetchInstance d).patch input init loc
          = (createFetchInstance d).call input
              (recSet init "method" (JSVal.str "PATCH")) loc
        ∧ ((recKeys init).Nodup → ∀ (u : URLModel) (opts : List (String × JSVal)),
            (createFetchInstance d).patch input init loc = Except.ok ⟨u, opts⟩ →
            objGetD opts "method" = JSVal.str "PATCH"))
    ∧ (∀ (d : List (String × JSVal)) (input : FetchInput)
       (init : List (String × JSVal)) (loc : Option String),
      (createFetchInstance d).delete input init loc
          = (createFetchInstance d).call input
              (recSet init "method" (JSVal.str "DELETE")) loc
        ∧ ((recKeys init).Nodup → ∀ (u : URLModel) (opts : List (String × JSVal)),
            (createFetchInstance d).delete input init loc = Except.ok ⟨u, opts⟩ →
            objGetD opts "method" = JSVal.str "DELETE")) := by
  refine ⟨?_, ?_, ?_, ?_, ?_⟩ <;>
    (intro d input init loc
     exact ⟨rfl, fun hnd u opts hok =>
       request_method_forced d init input loc u opts _ hnd hok⟩)

/-- Claim C8, witness: for the empty instance, `get` on an absolute URL with
empty options is the default invocation with `method: "GET"`, and the fetch
primitive receives `method: "GET"`. -/
theorem claim_C8_witness :
    objGetD [("method", JSVal.str "GET"), ("headers", JSVal.headersV [])]
      "method" = JSVal.str "GET" :=
  (claim_C8.1 [] (FetchInput.str "https://api.com/data") [] none).2
    (by decide) (parseURL "https://api.com/data") _ rfl

/-- Claim C2, counterexample: the claim quantifies over every instance and
promises the exact URL `https://api.com/data?q=x` and no body.  For the
instance whose defaults are `\x7b body: "raw", params: \x7b r: "y" \x7d
\x7d`, `get("https://api.com/data", \x7bparams: \x7bq: "x"\x7d\x7d)` hands
the fetch primitive a body (the transport options carry a `body` key), merged
params from the defaults, and the URL `https://api.com/data?&r=y&q=x` — which also shows the `&` the
transformer always prepends to the query (`url.search += '&' + params`), so
even the default instance never produces `?q=x`. -/
theorem claim_C2_counterexample :
    callHref ((createFetchInstance
        [("body", JSVal.str "raw"), ("params", JSVal.obj [("r", JSVal.str "y")])]).get
        (FetchInput.str "https://api.com/data")
        [("params", JSVal.obj [("q", JSVal.str "x")])] none)
      = some "https://api.com/data?&r=y&q=x"
    ∧ some "https://api.com/data?&r=y&q=x" ≠ some "https://api.com/data?q=x"
    ∧ callHasBody ((createFetchInstance
        [("body", JSVal.str "raw"), ("params", JSVal.obj [("r", JSVal.str "y")])]).get
        (FetchInput.str "https://api.com/data")
        [("params", JSVal.obj [("q", JSVal.str "x")])] none)
      = some true
 :=
  ⟨by decide, by decide, by decide⟩

/-- Claim C2, amended: for every instance whose defaults record holds no
truthy `body` value and no object-typed `params` value, and any ambient
origin, `get("https://api.com/data", \x7bparams: \x7bq: "x"\x7d\x7d)`
invokes the fetch primitive with method `GET`, with no body key in the
transport options, and with the URL `https://api.com/data?&q=x` (the
transformer appends `'&' + params` to the empty query string, so the query
keeps the leading `&`; the claim's `?q=x` is not what is issued). -/
theorem claim_C2 (d : List (String × JSVal)) (loc : Option String)
    (hbody : truthy (objGetD d "body") = false)
    (hparams : isAnyObject (objGetD d "params") = false) :
    callMethod ((createFetchInstance d).get (FetchInput.str "https://api.com/data")
        [("params", JSVal.obj [("q", JSVal.str "x")])] loc)
      = some (JSVal.str "GET")
    ∧ callHasBody ((createFetchInstance d).get (FetchInput.str "https://api.com/data")
        [("params", JSVal.obj [("q", JSVal.str "x")])] loc)
      = some false
    ∧ callHref ((createFetchInstance d).get (FetchInput.str "https://api.com/data")
        [("params", JSVal.obj [("q", JSVal.str "x")])] loc)
      = some "https://api.com/data?&q=x" := by
  have hmb : objGetD (mergeDeep d (some (recSet
      [("params", JSVal.obj [("q", JSVal.str "x")])] "method" (JSVal.str "GET"))))
      "body" = objGetD d "body" := by
    rw [mergeDeep, objGetD_mergeFieldsList _ _ _ (by decide),
      show recGet? (recSet [("params", JSVal.obj [("q", JSVal.str "x")])]
        "method" (JSVal.str "GET")) "body" = none from rfl]
  have hmp : objGetD (mergeDeep d (some (recSet
      [("params", JSVal.obj [("q", JSVal.str "x")])] "method" (JSVal.str "GET"))))
      "params" = JSVal.obj [("q", JSVal.str "x")] := by
    rw [mergeDeep, objGetD_mergeFieldsList _ _ _ (by decide),
      show recGet? (recSet [("params", JSVal.obj [("q", JSVal.str "x")])]
        "method" (JSVal.str "GET")) "params"
        = some (JSVal.obj [("q", JSVal.str "x")]) from rfl]
    have harr2 : isArrB (objGetD d "params") = false := by
      rcases hv : objGetD d "params" <;>
        first
        | rfl
        | (rw [hv] at hparams; simp [isAnyObject] at hparams)
    simp [mergeValue, hparams, harr2]
  have hmm2 : objGetD (mergeDeep d (some (recSet
      [("params", JSVal.obj [("q", JSVal.str "x")])] "method" (JSVal.str "GET"))))
      "method" = JSVal.str "GET" :=
    objGetD_merge_method d [("params", JSVal.obj [("q", JSVal.str "x")])]
      "GET" (by decide)
  have htrans : transformOptions (FetchInput.str "https://api.com/data")
      (mergeDeep d (some (recSet [("params", JSVal.obj [("q", JSVal.str "x")])]
        "method" (JSVal.str "GET")))) loc
      = Except.ok (⟨"https://api.com/data", "&q=x", ""⟩,
          recSet ((mergeDeep d (some (recSet
              [("params", JSVal.obj [("q", JSVal.str "x")])] "method"
              (JSVal.str "GET")))).filter (fun kv => !(restKeys.contains kv.1)))
            "headers" (JSVal.headersV (normalizeHeaders
              (objGetD (mergeDeep d (some (recSet
                [("params", JSVal.obj [("q", JSVal.str "x")])] "method"
                (JSVal.str "GET")))) "headers")))) := by
    rw [transformOptions,
      show convertInputToURL (FetchInput.str "https://api.com/data")
        (mergeDeep d (some (recSet [("params", JSVal.obj [("q", JSVal.str "x")])]
          "method" (JSVal.str "GET")))) loc
        = Except.ok ⟨"https://api.com/data", "", ""⟩ from rfl]
    rw [hmb, hmp]
    simp only [hbody, Bool.false_eq_true, if_false]
    rw [show stringifyParams (spreadFields (JSVal.obj [("q", JSVal.str "x")])) ""
      = "q=x" from rfl,
      if_pos (show truthy (JSVal.obj [("q", JSVal.str "x")]) = true from rfl),
      if_pos (show ("q=x" : String) ≠ "" by decide)]
    rfl
  refine ⟨?_, ?_, ?_⟩
  · show callMethod (request (FetchInput.str "https://api.com/data")
      (mergeDeep d (some (recSet [("params", JSVal.obj [("q", JSVal.str "x")])]
        "method" (JSVal.str "GET")))) loc) = some (JSVal.str "GET")
    rw [request, htrans, callMethod,
      objGetD_transformOptions_passthrough _ _ _ _ _ "method" (by decide) htrans,
      hmm2]
  · show callHasBody (request (FetchInput.str "https://api.com/data")
      (mergeDeep d (some (recSet [("params", JSVal.obj [("q", JSVal.str "x")])]
        "method" (JSVal.str "GET")))) loc) = some false
    rw [request, htrans, callHasBody,
      recHasKey_recSet_ne _ _ _ _ (by decide),
      recHasKey_filter_removed _ _ (by decide)]
  · show callHref (request (FetchInput.str "https://api.com/data")
      (mergeDeep d (some (recSet [("params", JSVal.obj [("q", JSVal.str "x")])]
        "method" (JSVal.str "GET")))) loc) = some "https://api.com/data?&q=x"
    rw [request, htrans, callHref]
    rfl

/-- Claim C2, witness: the pre-built default instance `fetcher` (empty
defaults) satisfies the amended claim. -/
theorem claim_C2_witness :
    callMethod (fetcher.get (FetchInput.str "https://api.com/data")
        [("params", JSVal.obj [("q", JSVal.str "x")])] none)
      = some (JSVal.str "GET")
    ∧ callHasBody (fetcher.get (FetchInput.str "https://api.com/data")
        [("params", JSVal.obj [("q", JSVal.str "x")])] none)
      = some false
    ∧ callHref (fetcher.get (FetchInput.str "https://api.com/data")
        [("params", JSVal.obj [("q", JSVal.str "x")])] none)
      = some "https://api.com/data?&q=x" :=
  claim_C2 [] none rfl rfl

theorem lookupObjs_writeObjs_ne (objs : List (Nat × HObj)) (a b : Nat)
    (fs : List (String × HVal)) (hab : a ≠ b) :
    lookupObjs a (writeObjs b fs objs) = lookupObjs a objs := by
  induction objs with
  | nil => rfl
  | cons p rest ih =>
    obtain ⟨c, o⟩ := p
    by_cases hc : c = b
    · subst hc
      have hca : ¬ c = a := fun he => hab (he ▸ rfl)
      simp [writeObjs, lookupObjs, hca]
    · by_cases hca : c = a
      · subst hca
        simp [writeObjs, lookupObjs, hc]
      · simp [writeObjs, lookupObjs, hc, hca, ih]

theorem Heap.lookupObj_writeFields_ne (h : Heap) (a b : Nat)
    (fs : List (String × HVal)) (hab : a ≠ b) :
    (h.writeFields b fs).lookupObj a = h.lookupObj a :=
  lookupObjs_writeObjs_ne h.objs a b fs hab

theorem Heap.next_writeFields (h : Heap) (b : Nat) (fs : List (String × HVal)) :
    (h.writeFields b fs).next = h.next := rfl

theorem Heap.lookupObj_alloc_ne (h : Heap) (o : HObj) (a : Nat)
    (ha : a ≠ h.next) : ((h.alloc o).2).lookupObj a = h.lookupObj a := by
  have : ¬ h.next = a := fun he => ha he.symm
  simp [Heap.alloc, Heap.lookupObj, lookupObjs, this]

theorem writeObjs_map_fst (objs : List (Nat × HObj)) (b : Nat)
    (fs : List (String × HVal)) :
    (writeObjs b fs objs).map (·.1) = objs.map (·.1) := by
  induction objs with
  | nil => rfl
  | cons q rest ih =>
    obtain ⟨c, o⟩ := q
    by_cases hc : c = b <;> simp [writeObjs, hc, ih]

theorem Heap.wf_writeFields (h : Heap) (b : Nat) (fs : List (String × HVal))
    (hwf : h.wf) : (h.writeFields b fs).wf := by
  intro p hp
  rw [Heap.next_writeFields]
  have h1 : p.1 ∈ (writeObjs b fs h.objs).map (·.1) :=
    List.mem_map_of_mem _ hp
  rw [writeObjs_map_fst] at h1
  rcases List.mem_map.mp h1 with ⟨q, hq, hq2⟩
  exact hq2 ▸ hwf q hq

theorem Heap.wf_alloc (h : Heap) (o : HObj) (hwf : h.wf) :
    ((h.alloc o).2).wf := by
  intro p hp
  rcases (by simpa [Heap.alloc] using hp : p = (h.next, o) ∨ p ∈ h.objs)
    with h1 | h1
  · simp [Heap.alloc, h1]
  · exact Nat.lt_succ_of_lt (hwf p h1)

theorem Heap.lookupObj_hSetField_ne (h : Heap) (a b : Nat) (k : String)
    (v : HVal) (hab : a ≠ b) :
    (hSetField h b k v).lookupObj a = h.lookupObj a :=
  Heap.lookupObj_writeFields_ne h a b _ hab

theorem Heap.next_hSetField (h : Heap) (b : Nat) (k : String) (v : HVal) :
    (hSetField h b k v).next = h.next := rfl

theorem Heap.wf_hSetField (h : Heap) (b : Nat) (k : String) (v : HVal)
    (hwf : h.wf) : (hSetField h b k v).wf :=
  Heap.wf_writeFields h b _ hwf

/-- The unfolding of `mergeDeepH` at positive fuel (an unconditional
equation, convenient for rewriting). -/
theorem mergeDeepH_succ (fuel : Nat) (h : Heap) (t : Nat) (s : HVal) :
    mergeDeepH (fuel + 1) h t s
      = if truthyH s then
          (match s with
           | HVal.ref sa =>
             (recKeys (spreadFieldsH h (HVal.ref sa))).foldl (fun hh k =>
               let tv := hGetField hh t k
               let sv := hGetField hh sa k
               if isArrayH hh tv && isArrayH hh sv then
                 let conc := hh.alloc ⟨HKind.array,
                   indexFieldsH 0 (arrElemsH hh tv ++ arrElemsH hh sv)⟩
                 hSetField conc.2 t k (HVal.ref conc.1)
               else if typeofObjectH tv && typeofObjectH sv then
                 let copy := hh.alloc ⟨HKind.plain, spreadFieldsH hh tv⟩
                 let h2 := mergeDeepH fuel copy.2 copy.1 sv
                 hSetField h2 t k (HVal.ref copy.1)
               else hSetField hh t k sv) h
           | _ => h)
        else h := rfl

/-- Folding a step function that writes only to `t` and to fresh objects
preserves every other pre-existing object, well-formedness, and the
monotonicity of the fresh-address counter. -/
theorem foldl_heap_frame (step : Heap → String → Heap) (t : Nat)
    (hstep : ∀ (hh : Heap) (k : String), hh.wf →
      (step hh k).wf ∧ hh.next ≤ (step hh k).next
        ∧ ∀ a, a < hh.next → a ≠ t →
            (step hh k).lookupObj a = hh.lookupObj a) :
    ∀ (ks : List String) (h : Heap), h.wf →
      (ks.foldl step h).wf ∧ h.next ≤ (ks.foldl step h).next
        ∧ ∀ a, a < h.next → a ≠ t →
            (ks.foldl step h).lookupObj a = h.lookupObj a := by
  intro ks
  induction ks with
  | nil =>
    intro h hwf
    exact ⟨hwf, Nat.le_refl _, fun a _ _ => rfl⟩
  | cons k ks ihk =>
    intro h hwf
    rw [List.foldl_cons]
    obtain ⟨w1, n1, p1⟩ := hstep h k hwf
    obtain ⟨w2, n2, p2⟩ := ihk (step h k) w1
    exact ⟨w2, Nat.le_trans n1 n2, fun a ha hat =>
      (p2 a (Nat.lt_of_lt_of_le ha n1) hat).trans (p1 a ha hat)⟩

/-- Frame property of the store-level merge: `mergeDeep` writes only to its
target object and to freshly allocated ones.  Every pre-existing object other
than the target is untouched, well-formedness is preserved, and the
fresh-address counter never decreases. -/
theorem mergeDeepH_frame (fuel : Nat) :
    ∀ (h : Heap) (t : Nat) (s : HVal), h.wf →
    (mergeDeepH fuel h t s).wf
      ∧ h.next ≤ (mergeDeepH fuel h t s).next
      ∧ ∀ a, a < h.next → a ≠ t →
          (mergeDeepH fuel h t s).lookupObj a = h.lookupObj a := by
  induction fuel with
  | zero =>
    intro h t s hwf
    exact ⟨hwf, Nat.le_refl _, fun a _ _ => rfl⟩
  | succ fuel ih =>
    intro h t s hwf
    cases s with
    | undef => exact ⟨hwf, Nat.le_refl _, fun a _ _ => rfl⟩
    | null => exact ⟨hwf, Nat.le_refl _, fun a _ _ => rfl⟩
    | bool b => cases b <;> exact ⟨hwf, Nat.le_refl _, fun a _ _ => rfl⟩
    | num n =>
      have heq : mergeDeepH (fuel + 1) h t (HVal.num n) = h := by
        rw [mergeDeepH_succ]
        exact ite_self h
      rw [heq]
      exact ⟨hwf, Nat.le_refl _, fun a _ _ => rfl⟩
    | str s2 =>
      have heq : mergeDeepH (fuel + 1) h t (HVal.str s2) = h := by
        rw [mergeDeepH_succ]
        exact ite_self h
      rw [heq]
      exact ⟨hwf, Nat.le_refl _, fun a _ _ => rfl⟩
    | ref sa =>
      rw [mergeDeepH_succ,
        if_pos (show truthyH (HVal.ref sa) = true from rfl)]
      refine foldl_heap_frame _ t ?_ _ h hwf
      intro hh k hhwf
      by_cases h1 : (isArrayH hh (hGetField hh t k)
          && isArrayH hh (hGetField hh sa k)) = true
      · simp only [h1, if_true]
        refine ⟨Heap.wf_hSetField _ _ _ _ (Heap.wf_alloc _ _ hhwf), ?_, ?_⟩
        · rw [Heap.next_hSetField]
          exact Nat.le_succ _
        · intro a ha hat
          rw [Heap.lookupObj_hSetField_ne _ _ _ _ _ hat,
            Heap.lookupObj_alloc_ne _ _ _ (Nat.ne_of_lt ha)]
      · simp only [h1, Bool.false_eq_true, if_false]
        by_cases h2 : (typeofObjectH (hGetField hh t k)
            && typeofObjectH (hGetField hh sa k)) = true
        · simp only [h2, if_true]
          obtain ⟨w3, n3, p3⟩ := ih
            ((hh.alloc ⟨HKind.plain, spreadFieldsH hh (hGetField hh t k)⟩).2)
            ((hh.alloc ⟨HKind.plain, spreadFieldsH hh (hGetField hh t k)⟩).1)
            (hGetField hh sa k) (Heap.wf_alloc _ _ hhwf)
          refine ⟨Heap.wf_hSetField _ _ _ _ w3, ?_, ?_⟩
          · rw [Heap.next_hSetField]
            exact Nat.le_trans (Nat.le_succ _) n3
          · intro a ha hat
            rw [Heap.lookupObj_hSetField_ne _ _ _ _ _ hat,
              p3 a (Nat.lt_succ_of_lt ha) (Nat.ne_of_lt ha),
              Heap.lookupObj_alloc_ne _ _ _ (Nat.ne_of_lt ha)]
        · simp only [h2, Bool.false_eq_true, if_false]
          refine ⟨Heap.wf_hSetField _ _ _ _ hhwf, ?_, ?_⟩
          · rw [Heap.next_hSetField]
          · intro a ha hat
            exact Heap.lookupObj_hSetField_ne _ _ _ _ _ hat

theorem Heap.lookupObj_headersSetH_ne (h : Heap) (a b : Nat) (n v : String)
    (hab : a ≠ b) : (headersSetH h b n v).lookupObj a = h.lookupObj a :=
  Heap.lookupObj_writeFields_ne h a b _ hab

theorem Heap.next_headersSetH (h : Heap) (b : Nat) (n v : String) :
    (headersSetH h b n v).next = h.next := rfl

theorem Heap.wf_headersSetH (h : Heap) (b : Nat) (n v : String)
    (hwf : h.wf) : (headersSetH h b n v).wf :=
  Heap.wf_writeFields h b _ hwf

theorem hKind_eq_of_lookup_eq (h h2 : Heap) (a : Nat)
    (he : h2.lookupObj a = h.lookupObj a) : hKind h2 a = hKind h a := by
  rw [hKind, hKind, he]

theorem Heap.next_mkHeadersH (h : Heap) (v : HVal) :
    ((mkHeadersH h v).2).next = h.next + 1 := by
  cases v <;> rfl

theorem Heap.lookupObj_mkHeadersH_ne (h : Heap) (v : HVal) (a : Nat)
    (ha : a ≠ h.next) :
    ((mkHeadersH h v).2).lookupObj a = h.lookupObj a := by
  cases v <;> exact Heap.lookupObj_alloc_ne _ _ _ ha

theorem Heap.wf_mkHeadersH (h : Heap) (v : HVal) (hwf : h.wf) :
    ((mkHeadersH h v).2).wf := by
  cases v <;> exact Heap.wf_alloc _ _ hwf

theorem normalizeHeadersH_next (h1 : Heap) (v : HVal) :
    h1.next ≤ ((normalizeHeadersH h1 v).2).next := by
  rcases v with _ | _ | b | n | s | a
  case ref =>
    rw [normalizeHeadersH]
    split
    · exact Nat.le_refl _
    · rw [Heap.next_mkHeadersH]
      exact Nat.le_succ _
  all_goals {
    show h1.next ≤ ((mkHeadersH h1 _).2).next
    rw [Heap.next_mkHeadersH]
    exact Nat.le_succ _
  }

theorem normalizeHeadersH_lookup (h1 : Heap) (v : HVal) (a : Nat)
    (ha : a ≠ h1.next) :
    ((normalizeHeadersH h1 v).2).lookupObj a = h1.lookupObj a := by
  rcases v with _ | _ | b | n | s | b
  case ref =>
    rw [normalizeHeadersH]
    split
    · rfl
    · exact Heap.lookupObj_mkHeadersH_ne _ _ _ ha
  all_goals exact Heap.lookupObj_mkHeadersH_ne _ _ _ ha

theorem normalizeHeadersH_wf (h1 : Heap) (v : HVal) (hwf : h1.wf) :
    ((normalizeHeadersH h1 v).2).wf := by
  rcases v with _ | _ | b | n | s | b
  case ref =>
    rw [normalizeHeadersH]
    split
    · exact hwf
    · exact Heap.wf_mkHeadersH _ _ hwf
  all_goals exact Heap.wf_mkHeadersH _ _ hwf

/-- The normalized headers object is either freshly allocated or a
pre-existing `Headers` collection. -/
theorem normalizeHeadersH_addr (h1 : Heap) (v : HVal) :
    (normalizeHeadersH h1 v).1 = h1.next
      ∨ hKind h1 ((normalizeHeadersH h1 v).1) = some HKind.headersK := by
  rcases v with _ | _ | b | n | s | b
  case ref =>
    rw [normalizeHeadersH]
    split
    · next hk => exact Or.inr hk
    · exact Or.inl rfl
  all_goals exact Or.inl rfl

theorem transformBodyStepH_next (fuel : Nat) (h2 : Heap) (restA nhA : Nat)
    (body : HVal) :
    (transformBodyStepH fuel h2 restA nhA body).next = h2.next := by
  rw [transformBodyStepH]
  split
  · split
    · rfl
    · rfl
  · rfl

theorem transformBodyStepH_lookup (fuel : Nat) (h2 : Heap) (restA nhA : Nat)
    (body : HVal) (a : Nat) (har : a ≠ restA) (hah : a ≠ nhA) :
    (transformBodyStepH fuel h2 restA nhA body).lookupObj a
      = h2.lookupObj a := by
  rw [transformBodyStepH]
  split
  · split
    · rw [Heap.lookupObj_headersSetH_ne _ _ _ _ _ hah,
        Heap.lookupObj_hSetField_ne _ _ _ _ _ har]
    · exact Heap.lookupObj_hSetField_ne _ _ _ _ _ har
  · rfl

theorem transformBodyStepH_wf (fuel : Nat) (h2 : Heap) (restA nhA : Nat)
    (body : HVal) (hwf : h2.wf) :
    (transformBodyStepH fuel h2 restA nhA body).wf := by
  rw [transformBodyStepH]
  split
  · split
    · exact Heap.wf_headersSetH _ _ _ _ (Heap.wf_hSetField _ _ _ _ hwf)
    · exact Heap.wf_hSetField _ _ _ _ hwf
  · exact hwf

/-- Frame property of the store-level options transformer: it writes only to
the freshly allocated `...rest` object and to the normalized headers object —
which is pre-existing only when the merged options' `headers` value is
already a `Headers` collection.  Every pre-existing object that is not a
`Headers` collection is untouched. -/
theorem transformOptionsH_frame (fuel : Nat) (h : Heap) (input : FetchInput)
    (t : Nat) (loc : Option String) (hwf : h.wf) :
    ((transformOptionsH fuel h input t loc).1).wf
    ∧ h.next ≤ ((transformOptionsH fuel h input t loc).1).next
    ∧ ∀ a, a < h.next → hKind h a ≠ some HKind.headersK →
        ((transformOptionsH fuel h input t loc).1).lookupObj a
          = h.lookupObj a := by
  rw [transformOptionsH]
  rcases hconv : convertInputToURLH (h.alloc ⟨HKind.plain,
      (hObjFields h t).filter (fun kv => !(restKeys.contains kv.1))⟩).2
      input t loc with e | url <;>
    simp only [hconv]
  · exact ⟨Heap.wf_alloc _ _ hwf, Nat.le_succ _,
      fun a ha _ => Heap.lookupObj_alloc_ne _ _ _ (Nat.ne_of_lt ha)⟩
  · refine ⟨?_, ?_, ?_⟩
    · exact Heap.wf_hSetField _ _ _ _ (transformBodyStepH_wf _ _ _ _ _
        (normalizeHeadersH_wf _ _ (Heap.wf_alloc _ _ hwf)))
    · rw [Heap.next_hSetField, transformBodyStepH_next]
      exact Nat.le_trans (Nat.le_succ _)
        (normalizeHeadersH_next ((h.alloc ⟨HKind.plain,
          (hObjFields h t).filter (fun kv => !(restKeys.contains kv.1))⟩).2)
          (hGetField h t "headers"))
    · intro a ha hkind
      have hner : a ≠ h.next := Nat.ne_of_lt ha
      have hpres1 : ((h.alloc ⟨HKind.plain,
          (hObjFields h t).filter (fun kv => !(restKeys.contains kv.1))⟩).2).lookupObj a
          = h.lookupObj a :=
        Heap.lookupObj_alloc_ne _ _ _ hner
      have hnenh : a ≠ (normalizeHeadersH (h.alloc ⟨HKind.plain,
          (hObjFields h t).filter (fun kv => !(restKeys.contains kv.1))⟩).2
          (hGetField h t "headers")).1 := by
        rcases normalizeHeadersH_addr ((h.alloc ⟨HKind.plain,
            (hObjFields h t).filter (fun kv => !(restKeys.contains kv.1))⟩).2)
            (hGetField h t "headers") with hfresh | hold
        · rw [hfresh]
          exact Nat.ne_of_lt (Nat.lt_succ_of_lt ha)
        · intro he
          rw [← he, hKind_eq_of_lookup_eq _ _ _ hpres1] at hold
          exact hkind hold
      rw [show ((h.alloc ⟨HKind.plain,
          (hObjFields h t).filter (fun kv => !(restKeys.contains kv.1))⟩).1)
          = h.next from rfl]
      rw [Heap.lookupObj_hSetField_ne _ _ _ _ _ hner,
        transformBodyStepH_lookup _ _ _ _ _ _ hner hnenh,
        normalizeHeadersH_lookup _ _ _
          (Nat.ne_of_lt (Nat.lt_succ_of_lt ha)),
        hpres1]

/-- Frame property of one full instance invocation
(`request(input, mergeDeep(\x7b ...defaults \x7d, \x7b ...init \x7d))`): the
defaults spread and the per-call options record are freshly allocated, the
merge writes only to that fresh copy, and the transformer writes only to
fresh objects and to a pre-existing `Headers` collection — so every
pre-existing object that is not a `Headers` collection, in particular the
captured defaults record and its nested plain records and arrays, is exactly
as before the call. -/
theorem instanceCallH_frame (fuel : Nat) (h : Heap) (defaults : Nat)
    (input : FetchInput) (init : HVal) (loc : Option String)
    (methodOverride : Option String) (a : Nat) (hwf : h.wf)
    (ha : a < h.next) (hkind : hKind h a ≠ some HKind.headersK) :
    ((instanceCallH fuel h defaults input init loc methodOverride).1).lookupObj a
      = h.lookupObj a := by
  rw [instanceCallH.eq_def]
  set h1 := (h.alloc ⟨HKind.plain, hObjFields h defaults⟩).2 with hh1
  set tA := (h.alloc ⟨HKind.plain, hObjFields h defaults⟩).1 with htA
  set sFields :=
    (match methodOverride with
     | some m => recSet (spreadFieldsH h1 init) "method" (HVal.str m)
     | none => spreadFieldsH h1 init) with hsF
  set sA := (h1.alloc ⟨HKind.plain, sFields⟩).1 with hsA
  set h2 := (h1.alloc ⟨HKind.plain, sFields⟩).2 with hh2
  set h3 := mergeDeepH fuel h2 tA (HVal.ref sA) with hh3
  have htA' : tA = h.next := rfl
  have hn1 : h1.next = h.next + 1 := rfl
  have hn2 : h2.next = h.next + 2 := rfl
  have hwf1 : h1.wf := Heap.wf_alloc _ _ hwf
  have hwf2 : h2.wf := Heap.wf_alloc _ _ hwf1
  have hpres1 : h1.lookupObj a = h.lookupObj a :=
    Heap.lookupObj_alloc_ne _ _ _ (Nat.ne_of_lt ha)
  have hpres2 : h2.lookupObj a = h1.lookupObj a :=
    Heap.lookupObj_alloc_ne _ _ _
      (by rw [hn1]; exact Nat.ne_of_lt (Nat.lt_succ_of_lt ha))
  obtain ⟨w2, n2, p2⟩ := mergeDeepH_frame fuel h2 tA (HVal.ref sA) hwf2
  have ha2 : a < h2.next := by
    rw [hn2]
    exact Nat.lt_succ_of_lt (Nat.lt_succ_of_lt ha)
  have hat : a ≠ tA := by
    rw [htA']
    exact Nat.ne_of_lt ha
  have hpres3 : h3.lookupObj a = h.lookupObj a := by
    rw [hh3, p2 a ha2 hat, hpres2, hpres1]
  obtain ⟨w3, n3, p3⟩ := transformOptionsH_frame fuel h3 input tA loc w2
  have ha3 : a < h3.next := Nat.lt_of_lt_of_le ha2 n2
  have hkind3 : hKind h3 a ≠ some HKind.headersK := by
    rw [hKind_eq_of_lookup_eq _ _ _ hpres3]
    exact hkind
  rw [p3 a ha3 hkind3, hpres3]

/-- Claim C5, counterexample: an instance whose captured defaults record (at
address 0) holds a `Headers` collection (address 1, initially empty), invoked
as a post with a plain-record body `\x7b a: 1 \x7d`.  `transformOptions`
reuses the defaults' `Headers` object as the normalized headers
(`headers instanceof Headers ? headers : ...`) and sets
`content-type: application/json` on it, so after the call the defaults'
nested `Headers` object has gained an entry — the captured defaults are not
structurally identical to what they were at instance creation. -/
theorem claim_C5_counterexample :
    hGetField ⟨[(0, ⟨HKind.plain, [("headers", HVal.ref 1)]⟩),
        (1, ⟨HKind.headersK, []⟩),
        (2, ⟨HKind.plain, [("body", HVal.ref 3)]⟩),
        (3, ⟨HKind.plain, [("a", HVal.num 1)]⟩)], 4⟩ 0 "headers" = HVal.ref 1
    ∧ Heap.lookupObj ⟨[(0, ⟨HKind.plain, [("headers", HVal.ref 1)]⟩),
        (1, ⟨HKind.headersK, []⟩),
        (2, ⟨HKind.plain, [("body", HVal.ref 3)]⟩),
        (3, ⟨HKind.plain, [("a", HVal.num 1)]⟩)], 4⟩ 1
      = some ⟨HKind.headersK, []⟩
    ∧ ((instanceCallH 8 ⟨[(0, ⟨HKind.plain, [("headers", HVal.ref 1)]⟩),
        (1, ⟨HKind.headersK, []⟩),
        (2, ⟨HKind.plain, [("body", HVal.ref 3)]⟩),
        (3, ⟨HKind.plain, [("a", HVal.num 1)]⟩)], 4⟩ 0
        (FetchInput.str "https://x.com/a") (HVal.ref 2) none
        (some "POST")).1).lookupObj 1
      = some ⟨HKind.headersK, [("content-type", HVal.str "application/json")]⟩
    ∧ (some (⟨HKind.headersK,
          [("content-type", HVal.str "application/json")]⟩ : HObj)
        ≠ some (⟨HKind.headersK, []⟩ : HObj)) := by
  refine ⟨rfl, rfl, by decide, by decide⟩

/-- Claim C5, amended: after any invocation of an instance (default call or
any verb method, for any fuel bound on the recursion), every object that
existed before the call and is not a `Headers` collection — in particular the
captured defaults record itself and all its nested plain sub-records and
arrays — is exactly as it was before the call.  Only a `Headers` collection
instance stored in the options can be mutated: when a plain-record body is
sent, the `content-type` write lands on that very object (see the
counterexample), which is what the unrestricted claim misses. -/
theorem claim_C5 (fuel : Nat) (h : Heap) (defaults : Nat) (input : FetchInput)
    (init : HVal) (loc : Option String) (methodOverride : Option String)
    (a : Nat) (hwf : h.wf) (ha : a < h.next)
    (hkind : hKind h a ≠ some HKind.headersK) :
    ((instanceCallH fuel h defaults input init loc methodOverride).1).lookupObj a
      = h.lookupObj a :=
  instanceCallH_frame fuel h defaults input init loc methodOverride a hwf ha
    hkind

/-- Claim C5, witness: a get call on an instance whose defaults record (a
plain object) holds no `Headers` collection leaves the defaults record
untouched. -/
theorem claim_C5_witness :
    ((instanceCallH 5 ⟨[(0, ⟨HKind.plain, [("a", HVal.num 1)]⟩)], 1⟩ 0
        (FetchInput.str "https://x.com/a") HVal.undef none
        (some "GET")).1).lookupObj 0
      = Heap.lookupObj ⟨[(0, ⟨HKind.plain, [("a", HVal.num 1)]⟩)], 1⟩ 0 :=
  claim_C5 5 ⟨[(0, ⟨HKind.plain, [("a", HVal.num 1)]⟩)], 1⟩ 0
    (FetchInput.str "https://x.com/a") HVal.undef none (some "GET") 0
    (by unfold Heap.wf; decide) (by decide) (by decide)
